import Mathlib

/-!
Verification of gogetio/validator: a shallow embedding of `validator.go`.

Go strings are modelled by Lean `String`s (their length is the UTF-8 byte
length, `String.utf8ByteSize`), Go maps `map[string]string` by association
lists, and a run-time panic by the result `none`.

The functions of the Go standard library whose behaviour is not spelled out
here (DNS lookup, `net.ParseIP`, `time.Parse`, `regexp.Compile` on a caller's
pattern, `strconv.ParseFloat`, `strings.ToLower`) are fields of the structure
`Lib`; every theorem holds for every `Lib`. A struct value read through
`reflect` is the list of its fields with the values of their two tags.
-/

namespace Gogetio

/-! ## Go maps -/

/-- A Go `map[string]string`, as an association list. The rules map is visited
in list order, which stands for the arbitrary order of a Go `range`. -/
abbrev GoMap := List (String × String)

/-- The two-valued read `v, ok := m[k]` of a Go map: `none` when the key is
absent. -/
def mapGet {α : Type} : List (String × α) → String → Option α
  | [], _ => none
  | (k, v) :: rest, key => if k = key then some v else mapGet rest key

/-- The assignment `m[k] = v`: overwrites the entry for `k` when there is one. -/
def mapSet : GoMap → String → String → GoMap
  | [], key, val => [(key, val)]
  | (k, v) :: rest, key, val =>
    if k = key then (key, val) :: rest else (k, v) :: mapSet rest key val

/-- The keys of a map. -/
def mapKeys (m : GoMap) : List String := m.map Prod.fst

/-! ## Pieces of the Go standard library that are modelled directly -/

/-- Splitting a character list on a separator; the result is never empty
(`strings.Split("", sep)` is the one-element list holding the empty string). -/
def splitChars (sep : Char) : List Char → List (List Char)
  | [] => [[]]
  | c :: cs =>
    if c = sep then [] :: splitChars sep cs
    else
      match splitChars sep cs with
      | [] => [[c]]
      | hd :: tl => (c :: hd) :: tl

/-- The call `strings.Split(s, sep)` for a one-character separator. -/
def stringsSplit (s : String) (sep : Char) : List String :=
  (splitChars sep s.data).map String.mk

/-- The call `strings.Count(s, "%s")`: the number of (non-overlapping)
occurrences of the two-character placeholder. -/
def countPlaceholders : List Char → Nat
  | c :: d :: rest =>
    if c = '%' ∧ d = 's' then 1 + countPlaceholders rest
    else countPlaceholders (d :: rest)
  | _ => 0

/-- What `fmt.Sprintf` appends when arguments are left over. -/
def sprintfExtra : List String → List Char
  | [] => []
  | a :: rest =>
    "%!(EXTRA string=".data ++ a.data
      ++ (rest.map (fun x => ", string=".data ++ x.data)).flatten ++ [')']

/-- The call `fmt.Sprintf(format, args...)` with string arguments, for formats
whose only verb is `%s` (all the templates of this package): every `%s` is
replaced by the next argument. -/
def sprintfChars : List Char → List String → List Char
  | c :: d :: rest, args =>
    if c = '%' ∧ d = 's' then
      match args with
      | a :: more => a.data ++ sprintfChars rest more
      | [] => "%!s(MISSING)".data ++ sprintfChars rest []
    else c :: sprintfChars (d :: rest) args
  | [c], args => c :: sprintfExtra args
  | [], args => sprintfExtra args

/-- The call `fmt.Sprintf(format, args...)` on strings. -/
def Sprintf (format : String) (args : List String) : String :=
  String.mk (sprintfChars format.data args)

/-- The value of a run of decimal digits read left to right, starting from
`acc`; `none` when a character is not an ASCII digit. -/
def parseDigits : List Char → Nat → Option Nat
  | [], acc => some acc
  | c :: cs, acc =>
    if c.isDigit then parseDigits cs (acc * 10 + (c.toNat - 48)) else none

/-- The call `strconv.ParseInt(s, 10, bitSize)`: `some n` when `err == nil`.
The syntax is an optional sign followed by at least one decimal digit; a value
outside the signed range of `bitSize` bits is a range error. -/
def ParseInt (s : String) (bitSize : Nat) : Option Int :=
  match s.data with
  | [] => none
  | c :: cs =>
    let neg := decide (c = '-')
    let ds := if c = '+' ∨ c = '-' then cs else c :: cs
    match ds with
    | [] => none
    | _ :: _ =>
      match parseDigits ds 0 with
      | none => none
      | some un =>
        let cutoff := 2 ^ (bitSize - 1)
        if !neg && decide (cutoff ≤ un) then none
        else if neg && decide (cutoff < un) then none
        else some (if neg then -(un : Int) else (un : Int))

/-- The call `strconv.ParseBool(s)`: whether `err == nil`. -/
def ParseBoolOk (s : String) : Bool :=
  decide (s ∈ ["1", "t", "T", "TRUE", "true", "True",
               "0", "f", "F", "FALSE", "false", "False"])

/-- The ASCII letters, the class `[a-zA-Z]`. -/
def isLetter (c : Char) : Bool :=
  (decide ('a' ≤ c) && decide (c ≤ 'z')) || (decide ('A' ≤ c) && decide (c ≤ 'Z'))

/-- The class `[a-zA-Z0-9]`. -/
def isAlnum (c : Char) : Bool := isLetter c || c.isDigit

/-- A match of an anchored pattern `^[class]+$`: the value is not empty and
every character is in the class. -/
def matchPlus (cls : Char → Bool) (value : String) : Bool :=
  !value.data.isEmpty && value.data.all cls

/-- A match of the pattern `^[0-9]+$`. -/
def matchDigits (value : String) : Bool := matchPlus Char.isDigit value

/-- A match of the domain part `[a-zA-Z0-9.-]+\.[a-zA-Z]{2,}$` of the email
pattern: the characters after the last dot are at least two letters, and what
precedes that dot is a non-empty run of the class `[a-zA-Z0-9.-]`. -/
def matchEmailDomain (dom : List Char) : Bool :=
  match (splitChars '.' dom).reverse with
  | tld :: p :: ps =>
    decide (2 ≤ tld.length) && tld.all isLetter
      && !(p.isEmpty && ps.isEmpty)
      && (p :: ps).all (fun part => part.all (fun c => isAlnum c || c = '-'))
  | _ => false

/-- A match of the pattern
`^[a-zA-Z0-9._%+-]+@[a-zA-Z0-9.-]+\.[a-zA-Z]{2,}$`. -/
def matchEmail (value : String) : Bool :=
  match splitChars '@' value.data with
  | [loc, dom] =>
    !loc.isEmpty
      && loc.all (fun c => isAlnum c || c = '.' || c = '_' || c = '%' || c = '+' || c = '-')
      && matchEmailDomain dom
  | _ => false

/-- The functions of the Go standard library that are left abstract. -/
structure Lib where
  /-- The call `strings.ToLower`. -/
  toLower : String → String
  /-- Whether `net.LookupHost` returns no error. -/
  lookupHost : String → Bool
  /-- Whether `net.ParseIP` returns a non-nil address. -/
  parseIP : String → Bool
  /-- Whether `time.Parse(layout, value)` returns no error. -/
  timeParse : String → String → Bool
  /-- The pair `regexp.Compile(pattern)` then `MatchString(value)`: `none` when
  the pattern does not compile. -/
  regexMatch : String → String → Option Bool
  /-- The type `float64`. -/
  Float64 : Type
  /-- The call `strconv.ParseFloat(s, bitSize)`: `some x` when `err == nil`. -/
  parseFloat : String → Nat → Option Float64
  /-- The comparison `x <= y` of two floats (`x >= y` is `y <= x`). -/
  fle : Float64 → Float64 → Bool
  /-- The comparison `x == y` of two floats. -/
  feq : Float64 → Float64 → Bool

/-- The call `strings.HasPrefix(s, pre)`. -/
def HasPrefix (s pre : String) : Bool := pre.data.isPrefixOf s.data

/-- The call `strings.TrimPrefix(s, pre)`. -/
def TrimPrefix (s pre : String) : String :=
  if HasPrefix s pre then String.mk (s.data.drop pre.data.length) else s

/-- The length `len(s)` of a Go string, in bytes. -/
def len (s : String) : Int := (s.utf8ByteSize : Int)

/-- The slice read `xs[i]`: `none` is the panic "index out of range". -/
def index (xs : List String) (i : Nat) : Option String := xs[i]?

/-! ## The predicates of `validator.go` -/

/-- The type `Validator` of the source; the result `none` is a run-time
panic. -/
abbrev Validator := String → String → GoMap → List String → Option Bool

/-- The helper `stringInSlice`. -/
def stringInSlice (needle : String) : List String → Bool
  | [] => false
  | val :: rest => if val = needle then true else stringInSlice needle rest

/-- Rule `accepted`. -/
def ValidateAccepted (_name value : String) (_inputs : GoMap) (_params : List String) :
    Option Bool :=
  let valid := ["1", "true", "yes", "on"]
  some (stringInSlice value valid)

/-- Rule `active_url`. -/
def ValidateActiveUrl (L : Lib) (_name value : String) (_inputs : GoMap)
    (_params : List String) : Option Bool :=
  let lc := L.toLower value
  let validScheme := HasPrefix lc "http://" || HasPrefix lc "https://"
  if !validScheme then some false
  else
    let lc1 := TrimPrefix lc "http://"
    let lc2 := TrimPrefix lc1 "https://"
    some (L.lookupHost lc2)

/-- Rule `alpha`. -/
def ValidateAlpha (_name value : String) (_inputs : GoMap) (_params : List String) :
    Option Bool :=
  some (matchPlus isLetter value)

/-- Rule `alpha_dash`, pattern `^[a-zA-Z0-9-_]+$`. -/
def ValidateAlphaDash (_name value : String) (_inputs : GoMap) (_params : List String) :
    Option Bool :=
  some (matchPlus (fun c => isAlnum c || c = '-' || c = '_') value)

/-- Rule `alpha_num`. -/
def ValidateAlphaNumeric (_name value : String) (_inputs : GoMap) (_params : List String) :
    Option Bool :=
  some (matchPlus isAlnum value)

/-- Rule `boolean`. -/
def ValidateBoolean (_name value : String) (_inputs : GoMap) (_params : List String) :
    Option Bool :=
  some (ParseBoolOk value)

/-- Rule `chars`. -/
def ValidateChars (_name value : String) (_inputs : GoMap) (params : List String) :
    Option Bool :=
  if params.length = 1 then do
    let p0 ← index params 0
    match ParseInt p0 16 with
    | some charCount => some (decide (len value = charCount))
    | none => some false
  else some false

/-- Rule `confirmed`. -/
def ValidateConfirmed (name value : String) (inputs : GoMap) (_params : List String) :
    Option Bool :=
  match mapGet inputs (name ++ "_confirmation") with
  | some fieldValue => some (decide (fieldValue = value))
  | none => some false

/-- Rule `date`. -/
def ValidateDate (L : Lib) (_name value : String) (_inputs : GoMap) (params : List String) :
    Option Bool :=
  if params.length = 1 then do
    let p0 ← index params 0
    some (L.timeParse p0 value)
  else some false

/-- Rule `same`. -/
def ValidateSame (_name value : String) (inputs : GoMap) (params : List String) :
    Option Bool :=
  if params.length = 1 then do
    let p0 ← index params 0
    match mapGet inputs p0 with
    | some fieldValue => some (decide (fieldValue = value))
    | none => some false
  else some false

/-- Rule `different`: the negation of `same`. -/
def ValidateDifferent (name value : String) (inputs : GoMap) (params : List String) :
    Option Bool := do
  let r ← ValidateSame name value inputs params
  some (!r)

/-- Rule `digits`. -/
def ValidateDigits (_name value : String) (_inputs : GoMap) (params : List String) :
    Option Bool :=
  if params.length = 1 ∧ matchDigits value = true then do
    let p0 ← index params 0
    match ParseInt p0 16 with
    | some digitCount => some (decide (len value = digitCount))
    | none => some false
  else some false

/-- Rule `email`. -/
def ValidateEmail (_name value : String) (_inputs : GoMap) (_params : List String) :
    Option Bool :=
  some (matchEmail value)

/-- Rule `in`. -/
def ValidateIn (_name value : String) (_inputs : GoMap) (params : List String) :
    Option Bool :=
  some (stringInSlice value params)

/-- Rule `integer`. -/
def ValidateInteger (_name value : String) (_inputs : GoMap) (_params : List String) :
    Option Bool :=
  some (ParseInt value 64).isSome

/-- Rule `ip`. -/
def ValidateIp (L : Lib) (_name value : String) (_inputs : GoMap) (_params : List String) :
    Option Bool :=
  some (L.parseIP value)

/-- Rule `min_chars`; the parameter is read at index 1 of a slice of length 1. -/
def ValidateMinChars (_name value : String) (_inputs : GoMap) (params : List String) :
    Option Bool :=
  if params.length = 1 then do
    let p1 ← index params 1
    match ParseInt p1 16 with
    | some minChars => some (decide (len value ≥ minChars))
    | none => some false
  else some false

/-- Rule `min_digits`. -/
def ValidateMinDigits (_name value : String) (_inputs : GoMap) (params : List String) :
    Option Bool :=
  if params.length = 1 ∧ matchDigits value = true then do
    let p0 ← index params 0
    match ParseInt p0 16 with
    | some minDigits => some (decide (len value ≥ minDigits))
    | none => some false
  else some false

/-- Rule `min_value`. -/
def ValidateMinValue (L : Lib) (_name value : String) (_inputs : GoMap)
    (params : List String) : Option Bool :=
  if params.length = 1 then do
    let p0 ← index params 0
    match L.parseFloat p0 64, L.parseFloat value 64 with
    | some minValue, some floatValue => some (L.fle minValue floatValue)
    | _, _ => some false
  else some false

/-- Rule `max_chars`; the parameter is read at index 1 of a slice of length 1. -/
def ValidateMaxChars (_name value : String) (_inputs : GoMap) (params : List String) :
    Option Bool :=
  if params.length = 1 then do
    let p1 ← index params 1
    match ParseInt p1 16 with
    | some maxChars => some (decide (len value ≤ maxChars))
    | none => some false
  else some false

/-- Rule `max_digits`. -/
def ValidateMaxDigits (_name value : String) (_inputs : GoMap) (params : List String) :
    Option Bool :=
  if params.length = 1 ∧ matchDigits value = true then do
    let p0 ← index params 0
    match ParseInt p0 16 with
    | some maxDigits => some (decide (len value ≤ maxDigits))
    | none => some false
  else some false

/-- Rule `max_value`. -/
def ValidateMaxValue (L : Lib) (_name value : String) (_inputs : GoMap)
    (params : List String) : Option Bool :=
  if params.length = 1 then do
    let p0 ← index params 0
    match L.parseFloat p0 64, L.parseFloat value 64 with
    | some maxValue, some floatValue => some (L.fle floatValue maxValue)
    | _, _ => some false
  else some false

/-- The short-circuit conjunction `a && b` of two calls that may panic. -/
def andThen (a : Option Bool) (b : Option Bool) : Option Bool :=
  match a with
  | none => none
  | some false => some false
  | some true => b

/-- Rule `chars_between`. -/
def ValidateCharsBetween (name value : String) (inputs : GoMap) (params : List String) :
    Option Bool :=
  if params.length = 2 then do
    let p1 := [← index params 0]
    let p2 := [← index params 1]
    andThen (ValidateMinChars name value inputs p1) (ValidateMaxChars name value inputs p2)
  else some false

/-- Rule `digits_between`. -/
def ValidateDigitsBetween (name value : String) (inputs : GoMap) (params : List String) :
    Option Bool :=
  if params.length = 2 then do
    let p1 := [← index params 0]
    let p2 := [← index params 1]
    andThen (ValidateMinDigits name value inputs p1) (ValidateMaxDigits name value inputs p2)
  else some false

/-- Rule `not_in`. -/
def ValidateNotIn (_name value : String) (_inputs : GoMap) (params : List String) :
    Option Bool :=
  some (!stringInSlice value params)

/-- Rule `numeric`. -/
def ValidateNumeric (L : Lib) (_name value : String) (_inputs : GoMap)
    (_params : List String) : Option Bool :=
  some (L.parseFloat value 64).isSome

/-- Rule `regex`. -/
def ValidateRegex (L : Lib) (_name value : String) (_inputs : GoMap) (params : List String) :
    Option Bool :=
  if params.length = 1 then do
    let p0 ← index params 0
    match L.regexMatch p0 value with
    | some m => some m
    | none => some false
  else some false

/-- Rule `required`. -/
def ValidateRequired (_name value : String) (_inputs : GoMap) (_params : List String) :
    Option Bool :=
  some (decide (value ≠ ""))

/-- Rule `url`. -/
def ValidateUrl (L : Lib) (_name value : String) (_inputs : GoMap) (_params : List String) :
    Option Bool :=
  let lc := L.toLower value
  let validScheme := HasPrefix lc "http://" || HasPrefix lc "https://"
  if validScheme then some true else some false

/-- Rule `value`. -/
def ValidateValue (L : Lib) (_name value : String) (_inputs : GoMap) (params : List String) :
    Option Bool :=
  if params.length = 1 then do
    let p0 ← index params 0
    match L.parseFloat p0 16, L.parseFloat value 16 with
    | some expectedValue, some actualValue => some (L.feq expectedValue actualValue)
    | _, _ => some false
  else some false

/-- Rule `value_between`. -/
def ValidateValueBetween (L : Lib) (name value : String) (inputs : GoMap)
    (params : List String) : Option Bool :=
  if params.length = 2 then do
    let p1 := [← index params 0]
    let p2 := [← index params 1]
    andThen (ValidateMinValue L name value inputs p1) (ValidateMaxValue L name value inputs p2)
  else some false

/-! ## The catalogs -/

/-- The map `Validators` of the source. -/
def Validators (L : Lib) : List (String × Validator) :=
  [ ("accepted", ValidateAccepted),
    ("active_url", ValidateActiveUrl L),
    ("alpha", ValidateAlpha),
    ("alpha_dash", ValidateAlphaDash),
    ("alpha_num", ValidateAlphaNumeric),
    ("boolean", ValidateBoolean),
    ("chars", ValidateChars),
    ("chars_between", ValidateCharsBetween),
    ("confirmed", ValidateConfirmed),
    ("date", ValidateDate L),
    ("different", ValidateDifferent),
    ("digits", ValidateDigits),
    ("digits_between", ValidateDigitsBetween),
    ("email", ValidateEmail),
    ("in", ValidateIn),
    ("integer", ValidateInteger),
    ("ip", ValidateIp L),
    ("max_chars", ValidateMaxChars),
    ("max_digits", ValidateMaxDigits),
    ("max_value", ValidateMaxValue L),
    ("min_chars", ValidateMinChars),
    ("min_digits", ValidateMinDigits),
    ("min_value", ValidateMinValue L),
    ("not_in", ValidateNotIn),
    ("numeric", ValidateNumeric L),
    ("regex", ValidateRegex L),
    ("required", ValidateRequired),
    ("same", ValidateSame),
    ("url", ValidateUrl L),
    ("value", ValidateValue L),
    ("value_between", ValidateValueBetween L) ]

/-- The map `Messages` of the source. -/
def Messages : List (String × String) :=
  [ ("accepted", "The %s must be accepted."),
    ("active_url", "The %s is not a valid URL."),
    ("alpha", "The %s may only contain letters."),
    ("alpha_dash", "The %s may only contain letters, numbers, and dashes."),
    ("alpha_num", "The %s may only contain letters and numbers."),
    ("boolean", "The %s field must be true or false."),
    ("chars", "The %s field must have %s characters."),
    ("chars_between", "The %s field must have between %s characters."),
    ("confirmed", "The %s confirmation does not match."),
    ("date", "The %s is not a valid date."),
    ("different", "The %s and %s must be different."),
    ("digits", "The %s must have %s digits."),
    ("digits_between", "The %s must have between %s and %s digits."),
    ("email", "The %s must be a valid email address."),
    ("in", "The selected %s is invalid."),
    ("max_chars", "The %s must have fewer than %s characters."),
    ("max_digits", "The %s must have fewer than %s digits."),
    ("max_value", "The %s must be less than %s."),
    ("min_chars", "The %s must have more than %s characters."),
    ("min_digits", "The %s must have more than %s digits."),
    ("min_value", "The %s must be greater than %s."),
    ("integer", "The %s must be an integer."),
    ("ip", "The %s must be a valid IP address."),
    ("not_in", "The selected %s is invalid."),
    ("numeric", "The %s must be a number."),
    ("regex", "The %s format is invalid."),
    ("required", "The %s field is required."),
    ("same", "The %s and %s must match."),
    ("url", "The %s format is invalid."),
    ("value", "The %s must %s."),
    ("value_between", "The %s must be between %s and %s.") ]

/-! ## The formatter, the parser and the evaluator -/

/-- The function `buildErrorMessage`. -/
def buildErrorMessage (fieldName rule : String) (params : List String) : String :=
  match mapGet Messages rule with
  | none => Sprintf "The %s is invalid." [fieldName]
  | some message =>
    if countPlaceholders message.data ≠ 1 + params.length then
      Sprintf "The %s is invalid." [fieldName]
    else Sprintf message (fieldName :: params)

/-- The function `splitRuleParams`. -/
def splitRuleParams (ruleWithParams : String) : String × List String :=
  match stringsSplit ruleWithParams ':' with
  | [rule, right] => (rule, stringsSplit right ',')
  | _ => (ruleWithParams, [])

/-- The inner loop of `Validate`: the rule tokens of one field, in textual
order, on the messages collected so far. -/
def runRules (L : Lib) (fieldName fieldValue : String) (inputs : GoMap) :
    List String → GoMap → Option GoMap
  | [], messages => some messages
  | token :: rest, messages =>
    match mapGet (Validators L) (splitRuleParams token).1 with
    | none => runRules L fieldName fieldValue inputs rest messages
    | some vFn =>
      match vFn fieldName fieldValue inputs (splitRuleParams token).2 with
      | none => none
      | some true => runRules L fieldName fieldValue inputs rest messages
      | some false =>
        runRules L fieldName fieldValue inputs rest
          (mapSet messages fieldName
            (buildErrorMessage fieldName (splitRuleParams token).1 (splitRuleParams token).2))

/-- The body of the outer loop of `Validate`, for one entry of the rules map. -/
def validateField (L : Lib) (inputs : GoMap) (fieldName fieldRulesRaw : String)
    (messages : GoMap) : Option GoMap :=
  let fieldValue := (mapGet inputs fieldName).getD ""
  let fieldExists := (mapGet inputs fieldName).isSome
  let fieldRules := stringsSplit fieldRulesRaw '|'
  let fieldIsRequired := stringInSlice "required" fieldRules
  let alwaysValidate := stringInSlice "always" fieldRules
  if fieldIsRequired && !fieldExists then
    some (mapSet messages fieldName (buildErrorMessage fieldName "required" []))
  else if fieldIsRequired || alwaysValidate
      || (!fieldIsRequired && decide (fieldValue ≠ "")) then
    runRules L fieldName fieldValue inputs fieldRules messages
  else some messages

/-- The outer loop of `Validate` over the entries of the rules map. -/
def validateFields (L : Lib) (inputs : GoMap) : GoMap → GoMap → Option GoMap
  | [], messages => some messages
  | (fieldName, fieldRulesRaw) :: rest, messages =>
    match validateField L inputs fieldName fieldRulesRaw messages with
    | none => none
    | some messages1 => validateFields L inputs rest messages1

/-- The function `Validate`: `none` when a predicate panics, otherwise the
pair of the verdict and the messages map. -/
def Validate (L : Lib) (inputs rules : GoMap) : Option (Bool × GoMap) :=
  match validateFields L inputs rules [] with
  | none => none
  | some messages => some (decide (messages.length = 0), messages)

/-- A library in which every abstract call fails; it instantiates the library
parameter where a theorem is applied to concrete inputs. -/
def offlineLib : Lib where
  toLower := fun s => s
  lookupHost := fun _ => false
  parseIP := fun _ => false
  timeParse := fun _ _ => false
  regexMatch := fun _ _ => none
  Float64 := Unit
  parseFloat := fun _ _ => none
  fle := fun _ _ => false
  feq := fun _ _ => false

/-! ## The schema extractor -/

/-- One field of a Go struct as `reflect` shows it: whether the field is
exported, and what `Tag.Get("json")` and `Tag.Get("validate")` return (the
empty string when the tag has no such key). -/
structure StructField where
  /-- Whether the field is exported (public). -/
  exported : Bool
  /-- The value of `Tag.Get("json")`. -/
  jsonName : String
  /-- The value of `Tag.Get("validate")`. -/
  validate : String

/-- The loop of `RulesFromStruct` over the fields `0 .. rv.NumField() - 1`, on
the rules collected so far. -/
def rulesFromFields : List StructField → GoMap → GoMap
  | [], rules => rules
  | rti :: rest, rules =>
    if rti.jsonName ≠ "" ∧ rti.validate ≠ "" then
      rulesFromFields rest (mapSet rules rti.jsonName rti.validate)
    else rulesFromFields rest rules

/-- The function `RulesFromStruct`, on a struct value given by its fields in
declaration order. -/
def RulesFromStruct (s : List StructField) : GoMap := rulesFromFields s []

/-! ## Definitions used to state the properties -/

/-- Whether a rule token leaves the messages alone when run on a field: it
names no predicate of the catalog, or one that returns true. -/
def tokenPasses (L : Lib) (fieldName fieldValue : String) (inputs : GoMap) (token : String) :
    Bool :=
  match mapGet (Validators L) (splitRuleParams token).1 with
  | none => true
  | some vFn => vFn fieldName fieldValue inputs (splitRuleParams token).2 == some true

/-- The rules whose predicate checks the length of its parameter list, each
with the parameter count it expects. -/
def guardedRules : List (String × Nat) :=
  [ ("chars", 1), ("chars_between", 2), ("date", 1), ("digits", 1), ("digits_between", 2),
    ("max_chars", 1), ("max_digits", 1), ("max_value", 1), ("min_chars", 1),
    ("min_digits", 1), ("min_value", 1), ("regex", 1), ("same", 1), ("value", 1),
    ("value_between", 2) ]

/-- The rules that expect no parameter; their predicates never read the
parameter list. -/
def parameterlessRules : List String :=
  [ "accepted", "alpha", "alpha_dash", "alpha_num", "boolean", "confirmed", "email",
    "integer", "ip", "numeric", "required", "url" ]

/-- The number written by a run of decimal digits, most significant first. -/
def digitsValue (ds : List Char) : Nat :=
  ds.foldl (fun acc c => 10 * acc + (c.toNat - '0'.toNat)) 0

/-- The integer that a base-10 integer literal denotes: an optional sign
followed by at least one ASCII digit; `none` for any other string. No bound
is put on the magnitude. -/
def intLiteral (s : String) : Option Int :=
  match s.data with
  | [] => none
  | c :: cs =>
    if c = '-' then
      if cs ≠ [] ∧ cs.all Char.isDigit = true then some (-(digitsValue cs : Int)) else none
    else if c = '+' then
      if cs ≠ [] ∧ cs.all Char.isDigit = true then some (digitsValue cs : Int) else none
    else if (c :: cs).all Char.isDigit = true then some (digitsValue (c :: cs) : Int)
    else none

/-- The call `strings.Join` on character lists, for a one-character
separator. -/
def joinChars (sep : Char) : List (List Char) → List Char
  | [] => []
  | [a] => a
  | a :: b :: rest => a ++ sep :: joinChars sep (b :: rest)

/-- The call `strings.Join(elems, sep)` for a one-character separator. -/
def stringsJoin (elems : List String) (sep : Char) : String :=
  String.mk (joinChars sep (elems.map String.data))

/-- The pieces of a template between its `%s` placeholders, in order: a
template with `k` placeholders has `k + 1` pieces. -/
def templatePieces : List Char → List (List Char)
  | c :: d :: rest =>
    if c = '%' ∧ d = 's' then [] :: templatePieces rest
    else
      match templatePieces (d :: rest) with
      | [] => [[c]]
      | hd :: tl => (c :: hd) :: tl
  | [c] => [[c]]
  | [] => [[]]

/-- The pieces of a template put back together with the `i`-th argument in
the place of the `i`-th placeholder. -/
def fillTemplate : List (List Char) → List String → List Char
  | [], _ => []
  | [piece], _ => piece
  | piece :: next :: more, [] => piece ++ fillTemplate (next :: more) []
  | piece :: next :: more, a :: args => piece ++ a.data ++ fillTemplate (next :: more) args

/-- The template of a rule with the field name in the place of its first
placeholder and the parameters in the places of the next ones. -/
def filledTemplate (template fieldName : String) (params : List String) : String :=
  String.mk (fillTemplate (templatePieces template.data) (fieldName :: params))

/-- The number of occurrences of the placeholder `%s` in a template. -/
def occurrences (template : String) : Nat := (templatePieces template.data).length - 1

/-- The parameter count that each rule of the catalog expects (for `in` and
`not_in`, which take at least one parameter, the least count). -/
def expectedParams : List (String × Nat) :=
  [ ("accepted", 0), ("active_url", 0), ("alpha", 0), ("alpha_dash", 0), ("alpha_num", 0),
    ("boolean", 0), ("chars", 1), ("chars_between", 2), ("confirmed", 0), ("date", 1),
    ("different", 1), ("digits", 1), ("digits_between", 2), ("email", 0), ("in", 1),
    ("integer", 0), ("ip", 0), ("max_chars", 1), ("max_digits", 1), ("max_value", 1),
    ("min_chars", 1), ("min_digits", 1), ("min_value", 1), ("not_in", 1), ("numeric", 0),
    ("regex", 1), ("required", 0), ("same", 1), ("url", 0), ("value", 1),
    ("value_between", 2) ]

/-- Whether the template of a rule has one placeholder for the field name and
one for each expected parameter. -/
def templateFits (rule : String) : Bool :=
  match mapGet Messages rule, mapGet expectedParams rule with
  | some template, some n => decide (occurrences template = 1 + n)
  | _, _ => false

/-- Whether a rule token records a message when run on a field: it names a
predicate of the catalog that returns false. -/
def tokenFails (L : Lib) (fieldName fieldValue : String) (inputs : GoMap) (token : String) :
    Bool :=
  match mapGet (Validators L) (splitRuleParams token).1 with
  | none => false
  | some vFn => vFn fieldName fieldValue inputs (splitRuleParams token).2 == some false

/-- The last token, in textual order, that fails on a field. -/
def lastFailure (L : Lib) (fieldName fieldValue : String) (inputs : GoMap)
    (tokens : List String) : Option String :=
  (tokens.filter (tokenFails L fieldName fieldValue inputs)).getLast?

/-- The message of a failing token: `buildErrorMessage` on its rule name and
parameters. -/
def tokenMessage (fieldName token : String) : String :=
  buildErrorMessage fieldName (splitRuleParams token).1 (splitRuleParams token).2

/-- Two outcomes of `Validate` are the same: both are a panic, or both return
with the same verdict and the same messages map (the same value, or no value,
at every key). -/
def sameOutcome (a b : Option (Bool × GoMap)) : Prop :=
  match a, b with
  | none, none => True
  | some (v1, m1), some (v2, m2) => v1 = v2 ∧ ∀ k, mapGet m1 k = mapGet m2 k
  | _, _ => False

/-- Whether some rule token of a rules map names the rule `active_url`. -/
def usesActiveUrl (rules : GoMap) : Bool :=
  rules.any (fun fr =>
    (stringsSplit fr.2 '|').any (fun token => (splitRuleParams token).1 == "active_url"))

/-- The library `L` with another outcome of the DNS lookups. -/
def withLookupHost (L : Lib) (dns : String → Bool) : Lib :=
  ⟨L.toLower, dns, L.parseIP, L.timeParse, L.regexMatch, L.Float64, L.parseFloat, L.fle, L.feq⟩

/-- The fields of a struct that carry the serialized name `k` and have both
tags non-empty, in declaration order. -/
def taggedFields (s : List StructField) (k : String) : List StructField :=
  s.filter (fun x => decide (x.jsonName = k ∧ x.jsonName ≠ "" ∧ x.validate ≠ ""))

/-! ## Lemmas on maps -/

theorem mapGet_mapSet_self (m : GoMap) (k v : String) : mapGet (mapSet m k v) k = some v := by
  induction m with
  | nil => simp [mapSet, mapGet]
  | cons e rest ih =>
    obtain ⟨k1, v1⟩ := e
    by_cases h : k1 = k
    · simp [mapSet, mapGet, h]
    · simp [mapSet, mapGet, h, ih]

theorem mapGet_mapSet_other (m : GoMap) (k v key : String) (h : k ≠ key) :
    mapGet (mapSet m k v) key = mapGet m key := by
  induction m with
  | nil => simp [mapSet, mapGet, h]
  | cons e rest ih =>
    obtain ⟨k1, v1⟩ := e
    by_cases h1 : k1 = k
    · subst h1
      simp [mapSet, mapGet, h]
    · simp [mapSet, mapGet, h1, ih]

theorem mapKeys_mapSet (m : GoMap) (k v x : String) (hx : x ∈ mapKeys (mapSet m k v)) :
    x = k ∨ x ∈ mapKeys m := by
  induction m with
  | nil =>
    simp [mapSet, mapKeys] at hx
    exact Or.inl hx
  | cons e rest ih =>
    obtain ⟨k1, v1⟩ := e
    by_cases h1 : k1 = k
    · simp only [mapSet, h1, if_true, mapKeys, List.map_cons, List.mem_cons] at hx ⊢
      rcases hx with hx | hx
      · exact Or.inl hx
      · exact Or.inr (Or.inr hx)
    · simp only [mapSet, h1, if_false, mapKeys, List.map_cons, List.mem_cons] at hx ⊢
      rcases hx with hx | hx
      · exact Or.inr (Or.inl hx)
      · rcases ih hx with h2 | h2
        · exact Or.inl h2
        · exact Or.inr (Or.inr h2)

theorem mapGet_isSome_mem_keys (m : GoMap) (k v : String) (h : mapGet m k = some v) :
    k ∈ mapKeys m := by
  induction m with
  | nil => simp [mapGet] at h
  | cons e rest ih =>
    obtain ⟨k1, v1⟩ := e
    by_cases h1 : k1 = k
    · simp [mapKeys, h1]
    · simp only [mapGet, h1, if_false] at h
      simp only [mapKeys, List.map_cons, List.mem_cons]
      exact Or.inr (ih h)

theorem mapGet_none_of_not_mem (m : GoMap) (k : String) (h : k ∉ mapKeys m) :
    mapGet m k = none := by
  induction m with
  | nil => simp [mapGet]
  | cons e rest ih =>
    obtain ⟨k1, v1⟩ := e
    simp only [mapKeys, List.map_cons, List.mem_cons, not_or] at h
    have h1 : k1 ≠ k := fun e => h.1 e.symm
    simp only [mapGet, h1, if_false]
    exact ih h.2

/-! ## Lemmas on the evaluator -/

theorem runRules_keys (L : Lib) (f v : String) (inputs : GoMap) (tokens : List String) :
    ∀ (m m1 : GoMap), runRules L f v inputs tokens m = some m1 →
      ∀ x, x ∈ mapKeys m1 → x = f ∨ x ∈ mapKeys m := by
  induction tokens with
  | nil =>
    intro m m1 h x hx
    simp only [runRules, Option.some.injEq] at h
    subst h
    exact Or.inr hx
  | cons t rest ih =>
    intro m m1 h x hx
    simp only [runRules] at h
    split at h
    · exact ih m m1 h x hx
    · split at h
      · exact absurd h (by simp)
      · exact ih m m1 h x hx
      · rcases ih _ m1 h x hx with h1 | h1
        · exact Or.inl h1
        · exact mapKeys_mapSet _ _ _ _ h1

theorem runRules_get_other (L : Lib) (f v : String) (inputs : GoMap) (tokens : List String)
    (key : String) (hk : f ≠ key) :
    ∀ (m m1 : GoMap), runRules L f v inputs tokens m = some m1 → mapGet m1 key = mapGet m key := by
  induction tokens with
  | nil =>
    intro m m1 h
    simp only [runRules, Option.some.injEq] at h
    subst h
    rfl
  | cons t rest ih =>
    intro m m1 h
    simp only [runRules] at h
    split at h
    · exact ih m m1 h
    · split at h
      · exact absurd h (by simp)
      · exact ih m m1 h
      · rw [ih _ m1 h, mapGet_mapSet_other _ _ _ _ hk]

theorem validateField_keys (L : Lib) (inputs : GoMap) (f e : String) (m m1 : GoMap)
    (h : validateField L inputs f e m = some m1) :
    ∀ x, x ∈ mapKeys m1 → x = f ∨ x ∈ mapKeys m := by
  intro x hx
  simp only [validateField] at h
  split at h
  · simp only [Option.some.injEq] at h
    subst h
    exact mapKeys_mapSet _ _ _ _ hx
  · split at h
    · exact runRules_keys L f _ inputs _ m m1 h x hx
    · simp only [Option.some.injEq] at h
      subst h
      exact Or.inr hx

theorem validateField_get_other (L : Lib) (inputs : GoMap) (f e : String) (m m1 : GoMap)
    (key : String) (hk : f ≠ key) (h : validateField L inputs f e m = some m1) :
    mapGet m1 key = mapGet m key := by
  simp only [validateField] at h
  split at h
  · simp only [Option.some.injEq] at h
    subst h
    exact mapGet_mapSet_other _ _ _ _ hk
  · split at h
    · exact runRules_get_other L f _ inputs _ key hk m m1 h
    · simp only [Option.some.injEq] at h
      subst h
      rfl

theorem validateFields_keys (L : Lib) (inputs : GoMap) (rules : GoMap) :
    ∀ (m m1 : GoMap), validateFields L inputs rules m = some m1 →
      ∀ x, x ∈ mapKeys m1 → x ∈ mapKeys rules ∨ x ∈ mapKeys m := by
  induction rules with
  | nil =>
    intro m m1 h x hx
    simp only [validateFields, Option.some.injEq] at h
    subst h
    exact Or.inr hx
  | cons fr rest ih =>
    obtain ⟨f, e⟩ := fr
    intro m m1 h x hx
    simp only [validateFields] at h
    split at h
    · exact absurd h (by simp)
    · rename_i m2 h2
      simp only [mapKeys, List.map_cons, List.mem_cons]
      rcases ih m2 m1 h x hx with h3 | h3
      · exact Or.inl (Or.inr h3)
      · rcases validateField_keys L inputs f e m m2 h2 x h3 with h4 | h4
        · exact Or.inl (Or.inl h4)
        · exact Or.inr h4

theorem validateFields_get_other (L : Lib) (inputs : GoMap) (rules : GoMap) (key : String)
    (hk : key ∉ mapKeys rules) :
    ∀ (m m1 : GoMap), validateFields L inputs rules m = some m1 → mapGet m1 key = mapGet m key := by
  induction rules with
  | nil =>
    intro m m1 h
    simp only [validateFields, Option.some.injEq] at h
    subst h
    rfl
  | cons fr rest ih =>
    obtain ⟨f, e⟩ := fr
    intro m m1 h
    simp only [mapKeys, List.map_cons, List.mem_cons, not_or] at hk
    simp only [validateFields] at h
    split at h
    · exact absurd h (by simp)
    · rename_i m2 h2
      rw [ih hk.2 m2 m1 h]
      exact validateField_get_other L inputs f e m m2 key (fun e1 => hk.1 e1.symm) h2

/-- The entry of a field in the final messages is the one left by the step of
that field, which starts from messages with the same entry for the field. -/
theorem validateFields_field (L : Lib) (inputs : GoMap) (rules : GoMap) (f e : String) :
    (mapKeys rules).Nodup → (f, e) ∈ rules →
    ∀ (m m1 : GoMap), validateFields L inputs rules m = some m1 →
      ∃ ma mb, mapGet ma f = mapGet m f ∧ validateField L inputs f e ma = some mb
        ∧ mapGet m1 f = mapGet mb f := by
  induction rules with
  | nil => intro _ hmem; simp at hmem
  | cons fr rest ih =>
    obtain ⟨g, r⟩ := fr
    intro hnd hmem m m1 h
    simp only [mapKeys, List.map_cons, List.nodup_cons] at hnd
    simp only [validateFields] at h
    split at h
    · exact absurd h (by simp)
    · rename_i m2 h2
      rcases List.mem_cons.mp hmem with heq | hrest
      · simp only [Prod.mk.injEq] at heq
        obtain ⟨hf, he⟩ := heq
        subst hf; subst he
        exact ⟨m, m2, rfl, h2, validateFields_get_other L inputs rest f hnd.1 m2 m1 h⟩
      · have hfg : g ≠ f := by
          intro hgf
          apply hnd.1
          rw [hgf]
          exact List.mem_map_of_mem Prod.fst hrest
        obtain ⟨ma, mb, h3, h4, h5⟩ := ih hnd.2 hrest m2 m1 h
        refine ⟨ma, mb, ?_, h4, h5⟩
        rw [h3]
        exact validateField_get_other L inputs g r m m2 f hfg h2

theorem stringInSlice_iff (needle : String) (haystack : List String) :
    stringInSlice needle haystack = true ↔ needle ∈ haystack := by
  induction haystack with
  | nil => simp [stringInSlice]
  | cons a rest ih =>
    by_cases h : a = needle
    · simp [stringInSlice, h]
    · have h1 : ¬ needle = a := fun e => h e.symm
      simp [stringInSlice, h, h1, ih]

theorem stringInSlice_false_iff (needle : String) (haystack : List String) :
    stringInSlice needle haystack = false ↔ needle ∉ haystack := by
  rw [← stringInSlice_iff]
  simp

theorem buildErrorMessage_required (f : String) :
    buildErrorMessage f "required" [] = "The " ++ f ++ " field is required." := by
  obtain ⟨fd⟩ := f
  rfl

theorem buildErrorMessage_accepted (f : String) :
    buildErrorMessage f "accepted" [] = "The " ++ f ++ " must be accepted." := by
  obtain ⟨fd⟩ := f
  rfl

theorem validateField_required_missing (L : Lib) (inputs : GoMap) (f e : String) (m : GoMap)
    (hreq : "required" ∈ stringsSplit e '|') (habs : mapGet inputs f = none) :
    validateField L inputs f e m = some (mapSet m f ("The " ++ f ++ " field is required.")) := by
  have h1 : stringInSlice "required" (stringsSplit e '|') = true :=
    (stringInSlice_iff _ _).mpr hreq
  simp only [validateField, h1, habs, Option.isSome_none, Bool.not_false, Bool.and_self,
    if_true, buildErrorMessage_required]

theorem validateField_optional_skip (L : Lib) (inputs : GoMap) (f e : String) (m : GoMap)
    (hreq : "required" ∉ stringsSplit e '|') (halw : "always" ∉ stringsSplit e '|')
    (hemp : mapGet inputs f = none ∨ mapGet inputs f = some "") :
    validateField L inputs f e m = some m := by
  have h1 : stringInSlice "required" (stringsSplit e '|') = false :=
    (stringInSlice_false_iff _ _).mpr hreq
  have h2 : stringInSlice "always" (stringsSplit e '|') = false :=
    (stringInSlice_false_iff _ _).mpr halw
  rcases hemp with h | h <;> simp [validateField, h1, h2, h]

theorem Validate_eq_some (L : Lib) (inputs rules : GoMap) (valid : Bool) (messages : GoMap)
    (h : Validate L inputs rules = some (valid, messages)) :
    validateFields L inputs rules [] = some messages ∧ valid = decide (messages.length = 0) := by
  simp only [Validate] at h
  split at h
  · exact absurd h (by simp)
  · rename_i m hm
    simp only [Option.some.injEq, Prod.mk.injEq] at h
    obtain ⟨h1, h2⟩ := h
    subst h2
    exact ⟨hm, h1.symm⟩

/-- C1: whenever `Validate` returns, the returned boolean is true if and only
if the returned messages map is empty. -/
theorem Validate_valid_iff_no_messages (L : Lib) (inputs rules : GoMap) (valid : Bool)
    (messages : GoMap) (h : Validate L inputs rules = some (valid, messages)) :
    valid = true ↔ messages = [] := by
  obtain ⟨_, h2⟩ := Validate_eq_some L inputs rules valid messages h
  rw [h2]
  simp

theorem Validate_valid_iff_no_messages_witness :
    Validate offlineLib [("tos", "no")] [("tos", "accepted")]
        = some (false, [("tos", "The tos must be accepted.")])
      ∧ (false = true ↔ [("tos", "The tos must be accepted.")] = ([] : GoMap)) :=
  ⟨by decide, Validate_valid_iff_no_messages offlineLib [("tos", "no")] [("tos", "accepted")]
    false [("tos", "The tos must be accepted.")] (by decide)⟩

/-- C2: whenever `Validate` returns, every key of the messages map is a key of
the rules map; an empty rules map yields valid with no messages, and a field
that has no rule gets no message. -/
theorem Validate_message_keys_subset_rules (L : Lib) (inputs rules : GoMap) (valid : Bool)
    (messages : GoMap) (h : Validate L inputs rules = some (valid, messages)) :
    (∀ k, k ∈ mapKeys messages → k ∈ mapKeys rules)
      ∧ (rules = [] → valid = true ∧ messages = [])
      ∧ (∀ k, k ∉ mapKeys rules → mapGet messages k = none) := by
  obtain ⟨h1, h2⟩ := Validate_eq_some L inputs rules valid messages h
  have hsub : ∀ k, k ∈ mapKeys messages → k ∈ mapKeys rules := by
    intro k hk
    rcases validateFields_keys L inputs rules [] messages h1 k hk with h3 | h3
    · exact h3
    · simp [mapKeys] at h3
  refine ⟨hsub, ?_, ?_⟩
  · intro hr
    subst hr
    simp only [validateFields, Option.some.injEq] at h1
    subst h1
    simp [h2]
  · intro k hk
    exact mapGet_none_of_not_mem messages k (fun hm => hk (hsub k hm))

theorem Validate_message_keys_subset_rules_witness :
    Validate offlineLib [("tos", "no"), ("extra", "x")] [("tos", "accepted")]
        = some (false, [("tos", "The tos must be accepted.")])
      ∧ ((∀ k, k ∈ mapKeys [("tos", "The tos must be accepted.")]
            → k ∈ mapKeys [("tos", "accepted")])
        ∧ (([("tos", "accepted")] : GoMap) = [] →
            false = true ∧ [("tos", "The tos must be accepted.")] = ([] : GoMap))
        ∧ (∀ k, k ∉ mapKeys [("tos", "accepted")]
            → mapGet [("tos", "The tos must be accepted.")] k = none)) :=
  ⟨by decide, Validate_message_keys_subset_rules offlineLib [("tos", "no"), ("extra", "x")]
    [("tos", "accepted")] false [("tos", "The tos must be accepted.")] (by decide)⟩

/-- C3: a field whose rule expression has the token `required` and that is
absent from the inputs makes the result invalid with exactly the `required`
message; the step of that field returns at once, whatever the other tokens. -/
theorem Validate_required_missing (L : Lib) (inputs rules : GoMap) (f e : String)
    (valid : Bool) (messages : GoMap)
    (hnd : (mapKeys rules).Nodup) (hfe : (f, e) ∈ rules)
    (hreq : "required" ∈ stringsSplit e '|') (habs : mapGet inputs f = none)
    (h : Validate L inputs rules = some (valid, messages)) :
    valid = false
      ∧ mapGet messages f = some ("The " ++ f ++ " field is required.")
      ∧ ∀ m, validateField L inputs f e m
          = some (mapSet m f ("The " ++ f ++ " field is required.")) := by
  obtain ⟨h1, h2⟩ := Validate_eq_some L inputs rules valid messages h
  obtain ⟨ma, mb, _, h4, h5⟩ := validateFields_field L inputs rules f e hnd hfe [] messages h1
  rw [validateField_required_missing L inputs f e ma hreq habs, Option.some.injEq] at h4
  subst h4
  rw [mapGet_mapSet_self] at h5
  refine ⟨?_, h5, fun m => validateField_required_missing L inputs f e m hreq habs⟩
  rw [h2]
  cases messages with
  | nil => simp [mapGet] at h5
  | cons a rest => simp

theorem Validate_required_missing_witness :
    (mapKeys [("name", "required|min_chars:3")]).Nodup
      ∧ "required" ∈ stringsSplit "required|min_chars:3" '|'
      ∧ (false = false
        ∧ mapGet [("name", "The name field is required.")] "name"
            = some ("The " ++ "name" ++ " field is required.")
        ∧ ∀ m, validateField offlineLib [] "name" "required|min_chars:3" m
            = some (mapSet m "name" ("The " ++ "name" ++ " field is required."))) :=
  ⟨by decide, by decide,
    Validate_required_missing offlineLib [] [("name", "required|min_chars:3")] "name"
      "required|min_chars:3" false [("name", "The name field is required.")]
      (by decide) (by decide) (by decide) (by decide) (by decide)⟩

/-- C4: a field whose rule expression has neither the token `required` nor the
token `always`, and that is absent or empty in the inputs, gets no message. -/
theorem Validate_optional_skip (L : Lib) (inputs rules : GoMap) (f e : String)
    (valid : Bool) (messages : GoMap)
    (hnd : (mapKeys rules).Nodup) (hfe : (f, e) ∈ rules)
    (hreq : "required" ∉ stringsSplit e '|') (halw : "always" ∉ stringsSplit e '|')
    (hemp : mapGet inputs f = none ∨ mapGet inputs f = some "")
    (h : Validate L inputs rules = some (valid, messages)) :
    mapGet messages f = none := by
  obtain ⟨h1, _⟩ := Validate_eq_some L inputs rules valid messages h
  obtain ⟨ma, mb, h3, h4, h5⟩ := validateFields_field L inputs rules f e hnd hfe [] messages h1
  rw [validateField_optional_skip L inputs f e ma hreq halw hemp, Option.some.injEq] at h4
  subst h4
  rw [h5, h3]
  rfl

theorem Validate_optional_skip_witness :
    (Validate offlineLib [] [("nick", "min_chars:3")] = some (true, [])
        ∧ mapGet ([] : GoMap) "nick" = none)
      ∧ (Validate offlineLib [("nick", "")] [("nick", "min_chars:3")] = some (true, [])
        ∧ mapGet ([] : GoMap) "nick" = none) :=
  ⟨⟨by decide, Validate_optional_skip offlineLib [] [("nick", "min_chars:3")] "nick"
      "min_chars:3" true [] (by decide) (by decide) (by decide) (by decide)
      (Or.inl (by decide)) (by decide)⟩,
   ⟨by decide, Validate_optional_skip offlineLib [("nick", "")] [("nick", "min_chars:3")] "nick"
      "min_chars:3" true [] (by decide) (by decide) (by decide) (by decide)
      (Or.inr (by decide)) (by decide)⟩⟩

theorem validateField_accepted (L : Lib) (f v : String) (hv : v ≠ "") :
    validateField L [(f, v)] f "accepted" []
      = some (if stringInSlice v ["1", "true", "yes", "on"] = true then []
              else [(f, "The " ++ f ++ " must be accepted.")]) := by
  have hs : stringsSplit "accepted" '|' = ["accepted"] := by decide
  have hp : splitRuleParams "accepted" = ("accepted", []) := by decide
  have hr : stringInSlice "required" ["accepted"] = false := by decide
  have ha : stringInSlice "always" ["accepted"] = false := by decide
  have hl : mapGet (Validators L) "accepted" = some ValidateAccepted := rfl
  have hg : mapGet [(f, v)] f = some v := by simp [mapGet]
  simp only [validateField, hs, hr, ha, hg, Option.getD_some, Option.isSome_some, Bool.not_true,
    Bool.and_self, Bool.false_and, Bool.or_self, Bool.not_false, Bool.true_and, Bool.false_or,
    decide_eq_true_eq, ne_eq, hv, not_false_eq_true, if_true, if_false, runRules, hp, hl,
    ValidateAccepted]
  cases hin : stringInSlice v ["1", "true", "yes", "on"]
  · simp [mapSet, buildErrorMessage_accepted]
  · simp

/-- C7: with inputs `{f: v}` for a non-empty `v` and rules `{f: "accepted"}`,
`Validate` returns valid with no messages when `v` is one of "1", "true",
"yes", "on", and otherwise invalid with exactly the message
"The <f> must be accepted." for `f`. -/
theorem Validate_accepted (L : Lib) (f v : String) (hv : v ≠ "") :
    Validate L [(f, v)] [(f, "accepted")]
      = some (if v ∈ ["1", "true", "yes", "on"] then (true, [])
              else (false, [(f, "The " ++ f ++ " must be accepted.")])) := by
  simp only [Validate, validateFields, validateField_accepted L f v hv]
  by_cases h : v ∈ ["1", "true", "yes", "on"]
  · have h1 := (stringInSlice_iff v _).mpr h
    simp [h1, h]
  · have h1 := (stringInSlice_false_iff v _).mpr h
    simp [h1, h]

theorem Validate_accepted_witness :
    "no" ≠ "" ∧ Validate offlineLib [("tos", "no")] [("tos", "accepted")]
      = some (if "no" ∈ ["1", "true", "yes", "on"] then (true, [])
              else (false, [("tos", "The " ++ "tos" ++ " must be accepted.")])) :=
  ⟨by decide, Validate_accepted offlineLib "tos" "no" (by decide)⟩

/-- C6: `Validate` panics (index out of range in `min_chars`) on the inputs
`{"name": "abc"}` with the rules `{"name": "min_chars:3"}`, whatever the
library does. -/
theorem Validate_panics_on_min_chars (L : Lib) :
    Validate L [("name", "abc")] [("name", "min_chars:3")] = none := by
  rfl

/-- C8: on every parameter list of exactly one element, `min_chars` and
`max_chars` panic (they read index 1), so they return neither true nor false,
whatever the value and the parameter. -/
theorem ValidateMinChars_MaxChars_panic (name value : String) (inputs : GoMap) (p : String) :
    ValidateMinChars name value inputs [p] = none
      ∧ ValidateMaxChars name value inputs [p] = none := by
  constructor <;> rfl

theorem runRules_append (L : Lib) (f v : String) (inputs : GoMap) (a b : List String) :
    ∀ m, runRules L f v inputs (a ++ b) m
      = (runRules L f v inputs a m).bind (runRules L f v inputs b) := by
  induction a with
  | nil => intro m; simp [runRules]
  | cons t rest ih =>
    intro m
    simp only [List.cons_append, runRules]
    split
    · exact ih m
    · split
      · rfl
      · exact ih m
      · exact ih _

theorem runRules_passing (L : Lib) (f v : String) (inputs : GoMap) (tokens : List String)
    (hp : ∀ t ∈ tokens, tokenPasses L f v inputs t = true) :
    ∀ m, runRules L f v inputs tokens m = some m := by
  induction tokens with
  | nil => intro m; rfl
  | cons t rest ih =>
    intro m
    have ht := hp t (List.mem_cons_self t rest)
    have hrest : ∀ t1 ∈ rest, tokenPasses L f v inputs t1 = true :=
      fun t1 h1 => hp t1 (List.mem_cons_of_mem t h1)
    simp only [tokenPasses] at ht
    simp only [runRules]
    split
    · exact ih hrest m
    · rename_i vFn hv
      rw [hv] at ht
      simp only [beq_iff_eq] at ht
      rw [ht]
      exact ih hrest m

theorem runRules_required_token (L : Lib) (f : String) (inputs : GoMap) (rest : List String)
    (m : GoMap) :
    runRules L f "" inputs ("required" :: rest) m
      = runRules L f "" inputs rest (mapSet m f ("The " ++ f ++ " field is required.")) := by
  have hp : splitRuleParams "required" = ("required", []) := by decide
  have hl : mapGet (Validators L) "required" = some ValidateRequired := rfl
  simp [runRules, hp, hl, ValidateRequired, buildErrorMessage_required]

theorem runRules_keeps_entry (L : Lib) (f v : String) (inputs : GoMap) (tokens : List String) :
    ∀ (m m1 : GoMap), runRules L f v inputs tokens m = some m1 →
      (mapGet m f).isSome = true → (mapGet m1 f).isSome = true := by
  induction tokens with
  | nil =>
    intro m m1 h hm
    simp only [runRules, Option.some.injEq] at h
    subst h
    exact hm
  | cons t rest ih =>
    intro m m1 h hm
    simp only [runRules] at h
    split at h
    · exact ih m m1 h hm
    · split at h
      · exact absurd h (by simp)
      · exact ih m m1 h hm
      · apply ih _ m1 h
        rw [mapGet_mapSet_self]
        rfl

theorem validateField_required_empty (L : Lib) (inputs : GoMap) (f e : String) (m : GoMap)
    (hreq : "required" ∈ stringsSplit e '|') (hemp : mapGet inputs f = some "") :
    validateField L inputs f e m = runRules L f "" inputs (stringsSplit e '|') m := by
  have h1 : stringInSlice "required" (stringsSplit e '|') = true :=
    (stringInSlice_iff _ _).mpr hreq
  simp [validateField, h1, hemp]

/-- The counterexample to C5: with the rules `{"name": "required|alpha"}` and the
inputs `{"name": ""}` the message left for the field is the one of `alpha`,
not the `required` message. -/
theorem Validate_required_empty_counterexample :
    "required" ∈ stringsSplit "required|alpha" '|'
      ∧ mapGet [("name", "")] "name" = some ""
      ∧ Validate offlineLib [("name", "")] [("name", "required|alpha")]
          = some (false, [("name", "The name may only contain letters.")])
      ∧ mapGet [("name", "The name may only contain letters.")] "name"
          ≠ some ("The " ++ "name" ++ " field is required.") := by
  decide

/-- C5 (amended): a field whose input is present and empty, and whose rule
expression has a token `required` after which every token passes on the empty
value (it names no predicate of the catalog, or one that returns true), makes
the result invalid with exactly the `required` message, whenever `Validate`
returns. -/
theorem Validate_required_empty (L : Lib) (inputs rules : GoMap) (f e : String)
    (valid : Bool) (messages : GoMap) (pre post : List String)
    (hnd : (mapKeys rules).Nodup) (hfe : (f, e) ∈ rules)
    (hsplit : stringsSplit e '|' = pre ++ "required" :: post)
    (hpass : ∀ t ∈ post, tokenPasses L f "" inputs t = true)
    (hemp : mapGet inputs f = some "")
    (h : Validate L inputs rules = some (valid, messages)) :
    valid = false ∧ mapGet messages f = some ("The " ++ f ++ " field is required.") := by
  have hreq : "required" ∈ stringsSplit e '|' := by
    rw [hsplit]
    simp
  obtain ⟨h1, h2⟩ := Validate_eq_some L inputs rules valid messages h
  obtain ⟨ma, mb, _, h4, h5⟩ := validateFields_field L inputs rules f e hnd hfe [] messages h1
  rw [validateField_required_empty L inputs f e ma hreq hemp, hsplit, runRules_append] at h4
  cases hpre : runRules L f "" inputs pre ma with
  | none => rw [hpre] at h4; simp at h4
  | some mc =>
    rw [hpre, Option.some_bind, runRules_required_token,
      runRules_passing L f "" inputs post hpass, Option.some.injEq] at h4
    have hget : mapGet messages f = some ("The " ++ f ++ " field is required.") := by
      rw [h5, ← h4, mapGet_mapSet_self]
    refine ⟨?_, hget⟩
    rw [h2]
    cases messages with
    | nil => simp [mapGet] at hget
    | cons a rest => simp

theorem Validate_required_empty_witness :
    stringsSplit "alpha|required|unknown:1" '|' = ["alpha"] ++ "required" :: ["unknown:1"]
      ∧ (∀ t ∈ ["unknown:1"], tokenPasses offlineLib "name" "" [("name", "")] t = true)
      ∧ Validate offlineLib [("name", "")] [("name", "alpha|required|unknown:1")]
          = some (false, [("name", "The name field is required.")])
      ∧ (false = false
        ∧ mapGet [("name", "The name field is required.")] "name"
            = some ("The " ++ "name" ++ " field is required.")) :=
  ⟨by decide, by decide, by decide,
    Validate_required_empty offlineLib [("name", "")] [("name", "alpha|required|unknown:1")]
      "name" "alpha|required|unknown:1" false [("name", "The name field is required.")]
      ["alpha"] ["unknown:1"]
      (by decide) (by decide) (by decide) (by decide) (by decide) (by decide)⟩

/-- The counterexample to C9: `accepted` expects no parameter, and on the
one-element parameter list `["x"]` it returns true for the value "yes". -/
theorem wrong_param_count_counterexample :
    mapGet (Validators offlineLib) "accepted" = some ValidateAccepted
      ∧ ["x"].length ≠ 0
      ∧ ValidateAccepted "tos" "yes" [("tos", "yes")] ["x"] = some true :=
  ⟨rfl, by decide, by decide⟩

/-- C9 (amended): the predicates that check the length of their parameter
list (chars, chars_between, date, digits, digits_between, max_chars,
max_digits, max_value, min_chars, min_digits, min_value, regex, same, value,
value_between) return false on every parameter list of another length than
the expected one, and `in` returns false on the empty parameter list; the
predicates of the rules that expect no parameter ignore the parameter list. -/
theorem wrong_param_count (L : Lib) (name value : String) (inputs : GoMap)
    (params : List String) :
    (∀ rule n, (rule, n) ∈ guardedRules → params.length ≠ n →
        ∃ vFn, mapGet (Validators L) rule = some vFn
          ∧ vFn name value inputs params = some false)
      ∧ (∃ vFn, mapGet (Validators L) "in" = some vFn ∧ vFn name value inputs [] = some false)
      ∧ (∀ rule, rule ∈ parameterlessRules →
        ∃ vFn, mapGet (Validators L) rule = some vFn
          ∧ vFn name value inputs params = vFn name value inputs []) := by
  refine ⟨?_, ⟨ValidateIn, rfl, rfl⟩, ?_⟩
  · intro rule n hmem hlen
    simp only [guardedRules, List.mem_cons, Prod.mk.injEq, List.mem_singleton,
      List.not_mem_nil, or_false] at hmem
    rcases hmem with ⟨rfl, rfl⟩ | ⟨rfl, rfl⟩ | ⟨rfl, rfl⟩ | ⟨rfl, rfl⟩ | ⟨rfl, rfl⟩
      | ⟨rfl, rfl⟩ | ⟨rfl, rfl⟩ | ⟨rfl, rfl⟩ | ⟨rfl, rfl⟩ | ⟨rfl, rfl⟩ | ⟨rfl, rfl⟩
      | ⟨rfl, rfl⟩ | ⟨rfl, rfl⟩ | ⟨rfl, rfl⟩ | ⟨rfl, rfl⟩
    · exact ⟨ValidateChars, rfl, by simp [ValidateChars, hlen]⟩
    · exact ⟨ValidateCharsBetween, rfl, by simp [ValidateCharsBetween, hlen]⟩
    · exact ⟨ValidateDate L, rfl, by simp [ValidateDate, hlen]⟩
    · exact ⟨ValidateDigits, rfl, by simp [ValidateDigits, hlen]⟩
    · exact ⟨ValidateDigitsBetween, rfl, by simp [ValidateDigitsBetween, hlen]⟩
    · exact ⟨ValidateMaxChars, rfl, by simp [ValidateMaxChars, hlen]⟩
    · exact ⟨ValidateMaxDigits, rfl, by simp [ValidateMaxDigits, hlen]⟩
    · exact ⟨ValidateMaxValue L, rfl, by simp [ValidateMaxValue, hlen]⟩
    · exact ⟨ValidateMinChars, rfl, by simp [ValidateMinChars, hlen]⟩
    · exact ⟨ValidateMinDigits, rfl, by simp [ValidateMinDigits, hlen]⟩
    · exact ⟨ValidateMinValue L, rfl, by simp [ValidateMinValue, hlen]⟩
    · exact ⟨ValidateRegex L, rfl, by simp [ValidateRegex, hlen]⟩
    · exact ⟨ValidateSame, rfl, by simp [ValidateSame, hlen]⟩
    · exact ⟨ValidateValue L, rfl, by simp [ValidateValue, hlen]⟩
    · exact ⟨ValidateValueBetween L, rfl, by simp [ValidateValueBetween, hlen]⟩
  · intro rule hmem
    simp only [parameterlessRules, List.mem_cons, List.mem_singleton, List.not_mem_nil,
      or_false] at hmem
    rcases hmem with rfl | rfl | rfl | rfl | rfl | rfl | rfl | rfl | rfl | rfl | rfl | rfl
    · exact ⟨ValidateAccepted, rfl, rfl⟩
    · exact ⟨ValidateAlpha, rfl, rfl⟩
    · exact ⟨ValidateAlphaDash, rfl, rfl⟩
    · exact ⟨ValidateAlphaNumeric, rfl, rfl⟩
    · exact ⟨ValidateBoolean, rfl, rfl⟩
    · exact ⟨ValidateConfirmed, rfl, rfl⟩
    · exact ⟨ValidateEmail, rfl, rfl⟩
    · exact ⟨ValidateInteger, rfl, rfl⟩
    · exact ⟨ValidateIp L, rfl, rfl⟩
    · exact ⟨ValidateNumeric L, rfl, rfl⟩
    · exact ⟨ValidateRequired, rfl, rfl⟩
    · exact ⟨ValidateUrl L, rfl, rfl⟩

theorem wrong_param_count_witness :
    ("chars", 1) ∈ guardedRules ∧ ["3", "4"].length ≠ 1
      ∧ ∃ vFn, mapGet (Validators offlineLib) "chars" = some vFn
          ∧ vFn "code" "abc" [("code", "abc")] ["3", "4"] = some false :=
  ⟨by decide, by decide,
    (wrong_param_count offlineLib "code" "abc" [("code", "abc")] ["3", "4"]).1 "chars" 1
      (by decide) (by decide)⟩

theorem parseDigits_eq (ds : List Char) :
    ∀ acc, parseDigits ds acc
      = if ds.all Char.isDigit = true then
          some (ds.foldl (fun a c => 10 * a + (c.toNat - '0'.toNat)) acc)
        else none := by
  induction ds with
  | nil => intro acc; simp [parseDigits]
  | cons c cs ih =>
    intro acc
    have h48 : '0'.toNat = 48 := by decide
    by_cases hc : c.isDigit = true
    · simp only [parseDigits, hc, if_true, ih, List.all_cons, Bool.true_and, List.foldl_cons,
        h48, Nat.mul_comm acc 10]
    · simp [parseDigits, hc]

theorem ParseInt_sixteen (s : String) :
    ParseInt s 16
      = match intLiteral s with
        | none => none
        | some n => if -32768 ≤ n ∧ n ≤ 32767 then some n else none := by
  obtain ⟨d⟩ := s
  cases d with
  | nil => simp [ParseInt, intLiteral]
  | cons c cs =>
    by_cases hm : c = '-'
    · subst hm
      cases cs with
      | nil => simp [ParseInt, intLiteral]
      | cons e es =>
        simp only [ParseInt, intLiteral, parseDigits_eq, digitsValue]
        by_cases hall : (e :: es).all Char.isDigit = true
        · simp [hall]
          generalize List.foldl _ _ _ = u
          split_ifs <;> first | rfl | omega
        · simp [hall]
    · by_cases hp : c = '+'
      · subst hp
        cases cs with
        | nil => simp [ParseInt, intLiteral]
        | cons e es =>
          simp only [ParseInt, intLiteral, parseDigits_eq, digitsValue]
          by_cases hall : (e :: es).all Char.isDigit = true
          · simp [hall]
            generalize List.foldl _ _ _ = u
            split_ifs <;> first | rfl | omega
          · simp [hall]
      · simp only [ParseInt, intLiteral, parseDigits_eq, digitsValue, hm, hp]
        by_cases hall : (c :: cs).all Char.isDigit = true
        · simp [hall]
          generalize List.foldl _ _ _ = u
          split_ifs <;> first | rfl | omega
        · simp [hall]


theorem isDigit_iff (c : Char) : c.isDigit = true ↔ '0' ≤ c ∧ c ≤ '9' := by
  simp only [Char.isDigit, Bool.and_eq_true, decide_eq_true_eq, ge_iff_le]
  rw [Char.le_def, Char.le_def]
  rfl

theorem matchDigits_iff (value : String) :
    matchDigits value = true ↔ value ≠ "" ∧ ∀ c ∈ value.data, '0' ≤ c ∧ c ≤ '9' := by
  obtain ⟨d⟩ := value
  have hne : (String.mk d ≠ "") ↔ d ≠ [] := by
    constructor
    · intro h hd
      exact h (by rw [hd])
    · intro h hs
      exact h (congrArg String.data hs)
  rw [hne]
  simp only [matchDigits, matchPlus, Bool.and_eq_true, Bool.not_eq_true', List.isEmpty_eq_false,
    List.all_eq_true, isDigit_iff]

/-- The counterexample to C10: "40000" and "-40000" are base-10 integer
literals and "1" is a non-empty string of ASCII digits of length 1, with
1 <= 40000 and 1 >= -40000, yet `max_digits` with "40000" and `min_digits`
with "-40000" both return false on "1". -/
theorem min_max_digits_counterexample :
    intLiteral "40000" = some 40000
      ∧ intLiteral "-40000" = some (-40000)
      ∧ matchDigits "1" = true
      ∧ len "1" ≤ 40000
      ∧ len "1" ≥ -40000
      ∧ ValidateMaxDigits "pin" "1" [("pin", "1")] ["40000"] = some false
      ∧ ValidateMinDigits "pin" "1" [("pin", "1")] ["-40000"] = some false := by
  decide

/-- C10 (amended): on a parameter list of exactly one base-10 integer literal
`n`, `min_digits` returns true if and only if `n` is in the signed 16-bit
range and the value is a non-empty string of ASCII digits of byte length
`>= n`, and `max_digits` returns true if and only if `n` is in that range and
the value is a non-empty string of ASCII digits of byte length `<= n`; both
always return (they never panic). -/
theorem min_max_digits_literal (name value : String) (inputs : GoMap) (p : String) (n : Int)
    (hlit : intLiteral p = some n) :
    (ValidateMinDigits name value inputs [p] = some true ↔
        (-32768 ≤ n ∧ n ≤ 32767)
          ∧ (value ≠ "" ∧ ∀ c ∈ value.data, '0' ≤ c ∧ c ≤ '9') ∧ len value ≥ n)
      ∧ (ValidateMaxDigits name value inputs [p] = some true ↔
        (-32768 ≤ n ∧ n ≤ 32767)
          ∧ (value ≠ "" ∧ ∀ c ∈ value.data, '0' ≤ c ∧ c ≤ '9') ∧ len value ≤ n)
      ∧ (∃ b, ValidateMinDigits name value inputs [p] = some b)
      ∧ (∃ b, ValidateMaxDigits name value inputs [p] = some b) := by
  rw [← matchDigits_iff]
  by_cases hd : matchDigits value = true
  · by_cases hr : -32768 ≤ n ∧ n ≤ 32767
    · simp [ValidateMinDigits, ValidateMaxDigits, index, ParseInt_sixteen, hlit, hd, hr]
    · simp [ValidateMinDigits, ValidateMaxDigits, index, ParseInt_sixteen, hlit, hd, hr]
  · simp [ValidateMinDigits, ValidateMaxDigits, hd]

theorem min_max_digits_literal_witness :
    intLiteral "3" = some 3
      ∧ ((ValidateMinDigits "pin" "1234" [] ["3"] = some true ↔
          (-32768 ≤ (3 : Int) ∧ (3 : Int) ≤ 32767)
            ∧ ("1234" ≠ "" ∧ ∀ c ∈ "1234".data, '0' ≤ c ∧ c ≤ '9') ∧ len "1234" ≥ 3)
        ∧ (ValidateMaxDigits "pin" "1234" [] ["3"] = some true ↔
          (-32768 ≤ (3 : Int) ∧ (3 : Int) ≤ 32767)
            ∧ ("1234" ≠ "" ∧ ∀ c ∈ "1234".data, '0' ≤ c ∧ c ≤ '9') ∧ len "1234" ≤ 3)
        ∧ (∃ b, ValidateMinDigits "pin" "1234" [] ["3"] = some b)
        ∧ (∃ b, ValidateMaxDigits "pin" "1234" [] ["3"] = some b)) :=
  ⟨by decide, min_max_digits_literal "pin" "1234" [] "3" 3 (by decide)⟩

theorem splitChars_ne_nil (sep : Char) (l : List Char) : splitChars sep l ≠ [] := by
  cases l with
  | nil => simp [splitChars]
  | cons c cs =>
    simp only [splitChars]
    split
    · simp
    · split <;> simp

theorem splitChars_of_not_mem (sep : Char) (l : List Char) (h : sep ∉ l) :
    splitChars sep l = [l] := by
  induction l with
  | nil => rfl
  | cons c cs ih =>
    simp only [List.mem_cons, not_or] at h
    have hc : ¬ c = sep := fun e => h.1 e.symm
    simp [splitChars, hc, ih h.2]

theorem splitChars_append_sep (sep : Char) (a b : List Char) :
    splitChars sep (a ++ sep :: b) = splitChars sep a ++ splitChars sep b := by
  induction a with
  | nil => simp [splitChars]
  | cons c cs ih =>
    by_cases hc : c = sep
    · simp [splitChars, hc, ih]
    · simp only [List.cons_append, splitChars, hc, if_false]
      have ih1 : splitChars sep (cs.append (sep :: b))
          = splitChars sep cs ++ splitChars sep b := ih
      rw [ih1]
      cases hs : splitChars sep cs with
      | nil => exact absurd hs (splitChars_ne_nil sep cs)
      | cons hd tl => simp

theorem splitChars_length (sep : Char) (l : List Char) :
    (splitChars sep l).length = l.count sep + 1 := by
  induction l with
  | nil => rfl
  | cons c cs ih =>
    by_cases hc : c = sep
    · subst hc
      simp [splitChars, ih]
    · have hc1 : (c == sep) = false := by simpa using hc
      simp only [splitChars, hc, if_false, List.count_cons, hc1]
      cases hs : splitChars sep cs with
      | nil => exact absurd hs (splitChars_ne_nil sep cs)
      | cons hd tl =>
        rw [hs] at ih
        simpa using ih

theorem mem_joinChars (sep c : Char) (l : List (List Char)) (h : c ∈ joinChars sep l) :
    c = sep ∨ ∃ a ∈ l, c ∈ a := by
  induction l with
  | nil => simp [joinChars] at h
  | cons a rest ih =>
    cases rest with
    | nil =>
      simp only [joinChars] at h
      exact Or.inr ⟨a, List.mem_cons_self _ _, h⟩
    | cons b more =>
      simp only [joinChars, List.mem_append, List.mem_cons] at h
      rcases h with h | h | h
      · exact Or.inr ⟨a, List.mem_cons_self _ _, h⟩
      · exact Or.inl h
      · rcases ih h with h1 | ⟨x, hx, hcx⟩
        · exact Or.inl h1
        · exact Or.inr ⟨x, List.mem_cons_of_mem _ hx, hcx⟩

theorem splitChars_joinChars (sep : Char) (l : List (List Char)) (hne : l ≠ [])
    (hel : ∀ a ∈ l, sep ∉ a) : splitChars sep (joinChars sep l) = l := by
  induction l with
  | nil => exact absurd rfl hne
  | cons a rest ih =>
    have ha : sep ∉ a := hel a (List.mem_cons_self _ _)
    cases rest with
    | nil => simp [joinChars, splitChars_of_not_mem sep a ha]
    | cons b more =>
      have hrest : ∀ x ∈ b :: more, sep ∉ x := fun x hx => hel x (List.mem_cons_of_mem _ hx)
      simp only [joinChars, splitChars_append_sep, splitChars_of_not_mem sep a ha]
      rw [ih (by simp) hrest]
      rfl

theorem splitRuleParams_no_colon (t : String) (h : ':' ∉ t.data) :
    splitRuleParams t = (t, []) := by
  simp [splitRuleParams, stringsSplit, splitChars_of_not_mem ':' t.data h]

theorem splitRuleParams_one_colon (left right : String) (hl : ':' ∉ left.data)
    (hr : ':' ∉ right.data) :
    splitRuleParams (left ++ ":" ++ right) = (left, stringsSplit right ',') := by
  have hd : (left ++ ":" ++ right).data = left.data ++ ':' :: right.data := by
    simp [String.data_append]
  simp [splitRuleParams, stringsSplit, hd, splitChars_append_sep,
    splitChars_of_not_mem ':' _ hl, splitChars_of_not_mem ':' _ hr]

theorem splitRuleParams_many_colons (t : String) (h : 2 ≤ t.data.count ':') :
    splitRuleParams t = (t, []) := by
  have hlen := splitChars_length ':' t.data
  simp only [splitRuleParams, stringsSplit]
  split
  · rename_i rule right heq
    have := congrArg List.length heq
    simp at this
    omega
  · rfl

theorem exists_split_of_count_one (l : List Char) (h : l.count ':' = 1) :
    ∃ a b, l = a ++ ':' :: b ∧ ':' ∉ a ∧ ':' ∉ b := by
  have hmem : ':' ∈ l := by
    apply List.count_pos_iff.mp
    omega
  obtain ⟨a, b, hab⟩ := List.append_of_mem hmem
  refine ⟨a, b, hab, ?_, ?_⟩
  · intro ha
    have h1 := List.count_pos_iff.mpr ha
    rw [hab, List.count_append, List.count_cons_self] at h
    omega
  · intro hb
    have h1 := List.count_pos_iff.mpr hb
    rw [hab, List.count_append, List.count_cons_self] at h
    omega

/-- C13: `splitRuleParams t` is `(t, [])` when `t` has no colon; it is
`(left, strings.Split(right, ","))` when `t` has exactly one colon, that is
`t = left ++ ":" ++ right` with no colon in `left` or `right`, where an empty
right side gives the one-element list `[""]`; and it is `(t, [])` when `t` has
more than one colon. The strings are returned as they are, without trimming. -/
theorem splitRuleParams_cases (t : String) :
    (t.data.count ':' = 0 → splitRuleParams t = (t, []))
      ∧ (∀ left right : String, ':' ∉ left.data → ':' ∉ right.data →
          t = left ++ ":" ++ right → splitRuleParams t = (left, stringsSplit right ','))
      ∧ (t.data.count ':' = 1 →
          ∃ left right : String, ':' ∉ left.data ∧ ':' ∉ right.data ∧ t = left ++ ":" ++ right)
      ∧ stringsSplit "" ',' = [""]
      ∧ (2 ≤ t.data.count ':' → splitRuleParams t = (t, [])) := by
  refine ⟨?_, ?_, ?_, by decide, splitRuleParams_many_colons t⟩
  · intro h
    exact splitRuleParams_no_colon t (List.count_eq_zero.mp h)
  · intro left right hl hr ht
    rw [ht]
    exact splitRuleParams_one_colon left right hl hr
  · intro h
    obtain ⟨a, b, hab, ha, hb⟩ := exists_split_of_count_one t.data h
    refine ⟨String.mk a, String.mk b, ha, hb, ?_⟩
    apply String.ext
    simp [String.data_append, hab]

theorem splitRuleParams_cases_witness :
    ':' ∉ "in".data ∧ ':' ∉ " a,b ".data
      ∧ splitRuleParams "in: a,b " = ("in", stringsSplit " a,b " ',')
      ∧ stringsSplit " a,b " ',' = [" a", "b "]
      ∧ splitRuleParams "a:b:c" = ("a:b:c", []) :=
  ⟨by decide, by decide,
    (splitRuleParams_cases "in: a,b ").2.1 "in" " a,b " (by decide) (by decide) (by decide),
    by decide,
    (splitRuleParams_cases "a:b:c").2.2.2.2 (by decide)⟩

/-- C20: for a rule name `n` without colon and a non-empty parameter list `p`
whose elements have neither colon nor comma, `splitRuleParams` of
`n ++ ":" ++ strings.Join(p, ",")` is exactly `(n, p)`; and `splitRuleParams n`
is `(n, [])`. -/
theorem splitRuleParams_round_trip (n : String) (p : List String) (hn : ':' ∉ n.data)
    (hp : p ≠ []) (hel : ∀ x ∈ p, ':' ∉ x.data ∧ ',' ∉ x.data) :
    splitRuleParams (n ++ ":" ++ stringsJoin p ',') = (n, p)
      ∧ splitRuleParams n = (n, []) := by
  refine ⟨?_, splitRuleParams_no_colon n hn⟩
  have hj : ':' ∉ (stringsJoin p ',').data := by
    intro hmem
    rcases mem_joinChars ',' ':' _ hmem with h1 | ⟨a, ha, hca⟩
    · exact absurd h1 (by decide)
    · obtain ⟨x, hx, rfl⟩ := List.mem_map.mp ha
      exact (hel x hx).1 hca
  rw [splitRuleParams_one_colon n _ hn hj]
  have hs : splitChars ',' (joinChars ',' (p.map String.data)) = p.map String.data := by
    apply splitChars_joinChars
    · simpa using hp
    · intro a ha
      obtain ⟨x, hx, rfl⟩ := List.mem_map.mp ha
      exact (hel x hx).2
  simp only [stringsSplit, stringsJoin, hs, List.map_map]
  congr 1
  exact List.map_id p

theorem splitRuleParams_round_trip_witness :
    ':' ∉ "value_between".data ∧ ["18", "65"] ≠ []
      ∧ (splitRuleParams ("value_between" ++ ":" ++ stringsJoin ["18", "65"] ',')
          = ("value_between", ["18", "65"])
        ∧ splitRuleParams "value_between" = ("value_between", [])) :=
  ⟨by decide, by decide,
    splitRuleParams_round_trip "value_between" ["18", "65"] (by decide) (by decide)
      (by decide)⟩

theorem templatePieces_ne_nil (t : List Char) : templatePieces t ≠ [] := by
  match t with
  | [] => simp [templatePieces]
  | [c] => simp [templatePieces]
  | c :: d :: rest =>
    simp only [templatePieces]
    split
    · simp
    · split <;> simp

theorem fillTemplate_cons_head (c : Char) (hd : List Char) (tl : List (List Char))
    (args : List String) :
    fillTemplate ((c :: hd) :: tl) args = c :: fillTemplate (hd :: tl) args := by
  cases tl with
  | nil => simp [fillTemplate]
  | cons q more =>
    cases args with
    | nil => simp [fillTemplate]
    | cons a rest => simp [fillTemplate]

theorem templatePieces_length (t : List Char) :
    (templatePieces t).length = countPlaceholders t + 1 := by
  induction t using countPlaceholders.induct with
  | case1 c d rest h ih =>
    simp [templatePieces, countPlaceholders, h, ih]
    omega
  | case2 c d rest h ih =>
    simp only [templatePieces, countPlaceholders, h, if_false]
    cases hs : templatePieces (d :: rest) with
    | nil => exact absurd hs (templatePieces_ne_nil _)
    | cons hd tl =>
      rw [hs] at ih
      simpa using ih
  | case3 t h =>
    match t with
    | [] => rfl
    | [c] => rfl
    | c :: d :: rest => exact absurd rfl (h c d rest)

theorem sprintfChars_eq_fillTemplate (t : List Char) :
    ∀ args : List String, countPlaceholders t = args.length →
      sprintfChars t args = fillTemplate (templatePieces t) args := by
  induction t using countPlaceholders.induct with
  | case1 c d rest h ih =>
    intro args hlen
    simp only [countPlaceholders, h, and_self, if_true] at hlen
    cases args with
    | nil => simp at hlen
    | cons a more =>
      have hm : countPlaceholders rest = more.length := by
        simp only [List.length_cons] at hlen
        omega
      simp only [sprintfChars, templatePieces, h, and_self, if_true, ih more hm]
      cases hs : templatePieces rest with
      | nil => exact absurd hs (templatePieces_ne_nil _)
      | cons q qs => simp [fillTemplate]
  | case2 c d rest h ih =>
    intro args hlen
    simp only [countPlaceholders, h, if_false] at hlen
    simp only [sprintfChars, templatePieces, h, if_false, ih args hlen]
    cases hs : templatePieces (d :: rest) with
    | nil => exact absurd hs (templatePieces_ne_nil _)
    | cons hd tl => simp [fillTemplate_cons_head]
  | case3 t h =>
    intro args hlen
    match t with
    | [] =>
      simp only [countPlaceholders] at hlen
      have : args = [] := List.length_eq_zero.mp hlen.symm
      subst this
      rfl
    | [c] =>
      simp only [countPlaceholders] at hlen
      have : args = [] := List.length_eq_zero.mp hlen.symm
      subst this
      rfl
    | c :: d :: rest => exact absurd rfl (h c d rest)

theorem Sprintf_generic (fieldName : String) :
    Sprintf "The %s is invalid." [fieldName] = "The " ++ fieldName ++ " is invalid." := by
  obtain ⟨fd⟩ := fieldName
  rfl

/-- C11: `buildErrorMessage` returns the generic string
"The <fieldName> is invalid." when the rule has no template in `Messages` or
its template does not have exactly `1 + len(params)` occurrences of `%s`;
otherwise it returns the template with the first `%s` replaced by the field
name and the next ones by the parameters, in order, the other text
unchanged. -/
theorem buildErrorMessage_spec (fieldName rule : String) (params : List String) :
    buildErrorMessage fieldName rule params
      = match mapGet Messages rule with
        | none => "The " ++ fieldName ++ " is invalid."
        | some template =>
          if occurrences template = 1 + params.length then
            filledTemplate template fieldName params
          else "The " ++ fieldName ++ " is invalid." := by
  simp only [buildErrorMessage, Sprintf_generic, occurrences, templatePieces_length,
    Nat.add_sub_cancel]
  split
  · rfl
  · rename_i template _
    by_cases hc : countPlaceholders template.data = 1 + params.length
    · have hlen : countPlaceholders template.data = (fieldName :: params).length := by
        simp only [List.length_cons]
        omega
      simp only [hc, ne_eq, not_true_eq_false, if_false, if_true, Sprintf, filledTemplate,
        sprintfChars_eq_fillTemplate _ _ hlen]
    · simp [hc]

/-- C12: the templates of `chars_between`, `date`, `regex`, `in` and `not_in`
do not have one placeholder per expected parameter besides the one of the
field name (they have 2, 1, 1, 1 and 1), these are the only rules of the
catalog with that defect, and a failure of such a rule with the right number
of parameters gets the generic message. -/
theorem catalog_templates_misfit :
    ((Validators offlineLib).map Prod.fst).filter (fun rule => !templateFits rule)
        = ["chars_between", "date", "in", "not_in", "regex"]
      ∧ (Option.map occurrences (mapGet Messages "chars_between") = some 2
        ∧ Option.map occurrences (mapGet Messages "date") = some 1
        ∧ Option.map occurrences (mapGet Messages "regex") = some 1
        ∧ Option.map occurrences (mapGet Messages "in") = some 1
        ∧ Option.map occurrences (mapGet Messages "not_in") = some 1)
      ∧ (buildErrorMessage "name" "chars_between" ["2", "5"] = "The name is invalid."
        ∧ buildErrorMessage "born" "date" ["2006-01-02"] = "The born is invalid."
        ∧ buildErrorMessage "code" "regex" ["^a+$"] = "The code is invalid."
        ∧ buildErrorMessage "size" "in" ["s", "m"] = "The size is invalid."
        ∧ buildErrorMessage "size" "not_in" ["s"] = "The size is invalid.")
      ∧ Validate offlineLib [("born", "x")] [("born", "date:2006-01-02")]
          = some (false, [("born", "The born is invalid.")]) := by
  decide

theorem valid_false_of_entry (messages : GoMap) (f msg : String)
    (h : mapGet messages f = some msg) : decide (messages.length = 0) = false := by
  cases messages with
  | nil => simp [mapGet] at h
  | cons a rest => simp

/-- C19: whenever `Validate` returns, a field whose rule expression has the
token `required` and whose input is absent or empty has an entry in the
messages map, so the result is invalid, whatever the other tokens. -/
theorem Validate_required_enforced (L : Lib) (inputs rules : GoMap) (f e : String)
    (valid : Bool) (messages : GoMap)
    (hnd : (mapKeys rules).Nodup) (hfe : (f, e) ∈ rules)
    (hreq : "required" ∈ stringsSplit e '|')
    (hemp : mapGet inputs f = none ∨ mapGet inputs f = some "")
    (h : Validate L inputs rules = some (valid, messages)) :
    (∃ msg, mapGet messages f = some msg) ∧ valid = false := by
  obtain ⟨h1, h2⟩ := Validate_eq_some L inputs rules valid messages h
  obtain ⟨ma, mb, _, h4, h5⟩ := validateFields_field L inputs rules f e hnd hfe [] messages h1
  have hsome : (mapGet messages f).isSome = true := by
    rcases hemp with habs | hempty
    · rw [validateField_required_missing L inputs f e ma hreq habs, Option.some.injEq] at h4
      rw [h5, ← h4, mapGet_mapSet_self]
      rfl
    · rw [validateField_required_empty L inputs f e ma hreq hempty] at h4
      obtain ⟨pre, post, hsp⟩ := List.append_of_mem hreq
      rw [hsp, runRules_append] at h4
      cases hpre : runRules L f "" inputs pre ma with
      | none => rw [hpre] at h4; simp at h4
      | some mc =>
        rw [hpre, Option.some_bind, runRules_required_token] at h4
        rw [h5]
        apply runRules_keeps_entry L f "" inputs post _ mb h4
        rw [mapGet_mapSet_self]
        rfl
  obtain ⟨msg, hmsg⟩ := Option.isSome_iff_exists.mp hsome
  exact ⟨⟨msg, hmsg⟩, by rw [h2]; exact valid_false_of_entry messages f msg hmsg⟩

theorem Validate_required_enforced_witness :
    (mapKeys [("name", "required|alpha"), ("nick", "alpha")]).Nodup
      ∧ "required" ∈ stringsSplit "required|alpha" '|'
      ∧ Validate offlineLib [("name", ""), ("nick", "bob")]
          [("name", "required|alpha"), ("nick", "alpha")]
          = some (false, [("name", "The name may only contain letters.")])
      ∧ ((∃ msg, mapGet [("name", "The name may only contain letters.")] "name" = some msg)
        ∧ false = false) :=
  ⟨by decide, by decide, by decide,
    Validate_required_enforced offlineLib [("name", ""), ("nick", "bob")]
      [("name", "required|alpha"), ("nick", "alpha")] "name" "required|alpha" false
      [("name", "The name may only contain letters.")]
      (by decide) (by decide) (by decide) (Or.inr (by decide)) (by decide)⟩

/-- C16: with the rules `{f: "required|confirmed"}`, `Validate` returns, and it
returns valid if and only if the inputs have `f` with a non-empty value and
have the key `f ++ "_confirmation"` with exactly the same value. -/
theorem Validate_required_confirmed (L : Lib) (f : String) (inputs : GoMap) :
    ∃ valid messages, Validate L inputs [(f, "required|confirmed")] = some (valid, messages)
      ∧ (valid = true ↔
          ∃ v, v ≠ "" ∧ mapGet inputs f = some v
            ∧ mapGet inputs (f ++ "_confirmation") = some v) := by
  have hs : stringsSplit "required|confirmed" '|' = ["required", "confirmed"] := by decide
  have hr : stringInSlice "required" ["required", "confirmed"] = true := by decide
  have hp1 : splitRuleParams "required" = ("required", []) := by decide
  have hp2 : splitRuleParams "confirmed" = ("confirmed", []) := by decide
  have hl1 : mapGet (Validators L) "required" = some ValidateRequired := rfl
  have hl2 : mapGet (Validators L) "confirmed" = some ValidateConfirmed := rfl
  cases hget : mapGet inputs f with
  | none =>
    refine ⟨false, [(f, buildErrorMessage f "required" [])], ?_, ?_⟩
    · simp [Validate, validateFields, validateField, hs, hr, hget, mapSet]
    · simp
  | some v =>
    by_cases hv : v = ""
    · subst hv
      cases hc : mapGet inputs (f ++ "_confirmation") with
      | none =>
        refine ⟨false, [(f, buildErrorMessage f "confirmed" [])], ?_, ?_⟩
        · simp [Validate, validateFields, validateField, hs, hr, hget, runRules, hp1, hp2, hl1,
            hl2, ValidateRequired, ValidateConfirmed, hc, mapSet]
        · simp
      | some w =>
        by_cases hw : w = ""
        · subst hw
          refine ⟨false, [(f, buildErrorMessage f "required" [])], ?_, ?_⟩
          · simp [Validate, validateFields, validateField, hs, hr, hget, runRules, hp1, hp2,
              hl1, hl2, ValidateRequired, ValidateConfirmed, hc, mapSet]
          · simp
        · refine ⟨false, [(f, buildErrorMessage f "confirmed" [])], ?_, ?_⟩
          · simp [Validate, validateFields, validateField, hs, hr, hget, runRules, hp1, hp2,
              hl1, hl2, ValidateRequired, ValidateConfirmed, hc, mapSet, hw]
          · simp
            exact fun h1 h2 => h1 h2.symm
    · cases hc : mapGet inputs (f ++ "_confirmation") with
      | none =>
        refine ⟨false, [(f, buildErrorMessage f "confirmed" [])], ?_, ?_⟩
        · simp [Validate, validateFields, validateField, hs, hr, hget, runRules, hp1, hp2, hl1,
            hl2, ValidateRequired, ValidateConfirmed, hc, mapSet, hv]
        · simp
      | some w =>
        by_cases hw : w = v
        · subst hw
          refine ⟨true, [], ?_, ?_⟩
          · simp [Validate, validateFields, validateField, hs, hr, hget, runRules, hp1, hp2,
              hl1, hl2, ValidateRequired, ValidateConfirmed, hc, hv]
          · simp [hv]
        · refine ⟨false, [(f, buildErrorMessage f "confirmed" [])], ?_, ?_⟩
          · simp [Validate, validateFields, validateField, hs, hr, hget, runRules, hp1, hp2,
              hl1, hl2, ValidateRequired, ValidateConfirmed, hc, mapSet, hv, hw]
          · simp
            intro _ hvw
            exact hw hvw.symm

theorem stringsSplit_append_token (e t : String) (sep : Char) (h : sep ∉ t.data) :
    stringsSplit (e ++ String.singleton sep ++ t) sep = stringsSplit e sep ++ [t] := by
  have hd : (e ++ String.singleton sep ++ t).data = e.data ++ sep :: t.data := by
    simp [String.data_append, String.singleton]
  simp [stringsSplit, hd, splitChars_append_sep, splitChars_of_not_mem sep _ h]

theorem stringInSlice_append_other (needle t : String) (l : List String) (h : t ≠ needle) :
    stringInSlice needle (l ++ [t]) = stringInSlice needle l := by
  induction l with
  | nil => simp [stringInSlice, h]
  | cons a rest ih => simp [stringInSlice, ih]

theorem runRules_unknown (L : Lib) (f v : String) (inputs : GoMap) (t : String) (m : GoMap)
    (hunk : (mapGet (Validators L) (splitRuleParams t).1).isNone = true) :
    runRules L f v inputs [t] m = some m := by
  have h : mapGet (Validators L) (splitRuleParams t).1 = none := Option.isNone_iff_eq_none.mp hunk
  simp [runRules, h]

theorem validateField_append_unknown (L : Lib) (inputs : GoMap) (f e t : String) (m : GoMap)
    (hbar : '|' ∉ t.data)
    (hunk : (mapGet (Validators L) (splitRuleParams t).1).isNone = true)
    (halw : t ≠ "always") :
    validateField L inputs f (e ++ "|" ++ t) m = validateField L inputs f e m := by
  have hreq : t ≠ "required" := by
    intro ht
    subst ht
    have hl : mapGet (Validators L) (splitRuleParams "required").1 = some ValidateRequired := rfl
    rw [hl] at hunk
    simp at hunk
  have hsp : stringsSplit (e ++ "|" ++ t) '|' = stringsSplit e '|' ++ [t] :=
    stringsSplit_append_token e t '|' hbar
  have hrun : ∀ v, runRules L f v inputs (stringsSplit e '|' ++ [t]) m
      = runRules L f v inputs (stringsSplit e '|') m := by
    intro v
    rw [runRules_append]
    cases runRules L f v inputs (stringsSplit e '|') m with
    | none => rfl
    | some m1 => exact runRules_unknown L f v inputs t m1 hunk
  simp only [validateField, hsp, stringInSlice_append_other _ t _ hreq,
    stringInSlice_append_other _ t _ halw, hrun]

theorem validateFields_congr_field (L : Lib) (inputs : GoMap) (pre post : GoMap)
    (f e1 e2 : String)
    (h : ∀ m, validateField L inputs f e1 m = validateField L inputs f e2 m) :
    ∀ m, validateFields L inputs (pre ++ (f, e1) :: post) m
      = validateFields L inputs (pre ++ (f, e2) :: post) m := by
  induction pre with
  | nil =>
    intro m
    simp only [List.nil_append, validateFields, h m]
  | cons a rest ih =>
    obtain ⟨g, r⟩ := a
    intro m
    simp only [List.cons_append, validateFields]
    cases validateField L inputs g r m with
    | none => rfl
    | some m1 => exact ih m1

/-- The counterexample to C15: `always` names no predicate of the catalog, the
absent field `nick` gets no message under `alpha`, and it gets one under
`alpha|always`. -/
theorem unknown_rule_inert_counterexample :
    (mapGet (Validators offlineLib) (splitRuleParams "always").1).isNone = true
      ∧ Validate offlineLib [] [("nick", "alpha")] = some (true, [])
      ∧ Validate offlineLib [] [("nick", "alpha" ++ "|" ++ "always")]
          = some (false, [("nick", "The nick may only contain letters.")]) := by
  decide

/-- C15 (amended): for a token `t` whose rule name has no predicate in the
catalog and that is not the flag `always`, adding `t` as a further token to
the rule expression of a field changes nothing: `Validate` gives the same
result (the same verdict and messages, or the same panic), so no field fails
and no message appears because of `t`. -/
theorem unknown_rule_inert (L : Lib) (inputs : GoMap) (pre post : GoMap) (f e t : String)
    (hbar : '|' ∉ t.data)
    (hunk : (mapGet (Validators L) (splitRuleParams t).1).isNone = true)
    (halw : t ≠ "always") :
    Validate L inputs (pre ++ (f, e ++ "|" ++ t) :: post)
      = Validate L inputs (pre ++ (f, e) :: post) := by
  simp only [Validate]
  rw [validateFields_congr_field L inputs pre post f (e ++ "|" ++ t) e
    (fun m => validateField_append_unknown L inputs f e t m hbar hunk halw)]

theorem unknown_rule_inert_witness :
    '|' ∉ "sometimes:1".data
      ∧ (mapGet (Validators offlineLib) (splitRuleParams "sometimes:1").1).isNone = true
      ∧ "sometimes:1" ≠ "always"
      ∧ Validate offlineLib [("nick", "bob")] ([] ++ ("nick", "alpha" ++ "|" ++ "sometimes:1") :: [])
          = Validate offlineLib [("nick", "bob")] ([] ++ ("nick", "alpha") :: []) :=
  ⟨by decide, by decide, by decide,
    unknown_rule_inert offlineLib [("nick", "bob")] [] [] "nick" "alpha" "sometimes:1"
      (by decide) (by decide) (by decide)⟩

theorem getLast?_cons_eq {α : Type} (a : α) (l : List α) :
    (a :: l).getLast? = some (l.getLast?.getD a) := by
  cases l with
  | nil => rfl
  | cons b rest =>
    rw [List.getLast?_cons_cons]
    cases h : (b :: rest).getLast? with
    | none => simp at h
    | some x => rfl

theorem runRules_last_failure (L : Lib) (f v : String) (inputs : GoMap)
    (tokens : List String) :
    ∀ (m m1 : GoMap), runRules L f v inputs tokens m = some m1 →
      mapGet m1 f
        = match lastFailure L f v inputs tokens with
          | none => mapGet m f
          | some t => some (tokenMessage f t) := by
  induction tokens with
  | nil =>
    intro m m1 h
    simp only [runRules, Option.some.injEq] at h
    subst h
    rfl
  | cons t rest ih =>
    intro m m1 h
    simp only [runRules] at h
    split at h
    · rename_i hnone
      have hf : tokenFails L f v inputs t = false := by simp [tokenFails, hnone]
      rw [ih m m1 h]
      simp [lastFailure, List.filter_cons, hf]
    · rename_i vFn hsome
      split at h
      · exact absurd h (by simp)
      · rename_i htrue
        have hf : tokenFails L f v inputs t = false := by simp [tokenFails, hsome, htrue]
        rw [ih m m1 h]
        simp [lastFailure, List.filter_cons, hf]
      · rename_i hfalse
        have hf : tokenFails L f v inputs t = true := by simp [tokenFails, hsome, hfalse]
        rw [ih _ m1 h]
        simp only [lastFailure, List.filter_cons, hf, if_true, getLast?_cons_eq,
          mapGet_mapSet_self]
        cases (List.filter (tokenFails L f v inputs) rest).getLast? with
        | none => rfl
        | some x => rfl

theorem validateField_runs (L : Lib) (inputs : GoMap) (f e : String) (m : GoMap)
    (hrun : ("required" ∈ stringsSplit e '|' ∧ mapGet inputs f ≠ none)
      ∨ ("always" ∈ stringsSplit e '|' ∧ "required" ∉ stringsSplit e '|')
      ∨ (∃ v, v ≠ "" ∧ mapGet inputs f = some v)) :
    validateField L inputs f e m
      = runRules L f ((mapGet inputs f).getD "") inputs (stringsSplit e '|') m := by
  rcases hrun with ⟨hreq, hpres⟩ | ⟨halw, hnreq⟩ | ⟨v, hv, hget⟩
  · have h1 := (stringInSlice_iff _ _).mpr hreq
    obtain ⟨v, hget⟩ := Option.ne_none_iff_exists'.mp hpres
    simp [validateField, h1, hget]
  · have h1 := (stringInSlice_false_iff _ _).mpr hnreq
    have h2 := (stringInSlice_iff _ _).mpr halw
    simp [validateField, h1, h2]
  · cases hr : stringInSlice "required" (stringsSplit e '|') <;>
      simp [validateField, hr, hget, hv]

/-- The counterexample to C18: the field `name` has the token `always` and is
absent, the last token that fails on the empty value is `alpha`, yet the
message left is the `required` one, not the one of `alpha`. -/
theorem last_failure_wins_counterexample :
    "always" ∈ stringsSplit "required|always|alpha" '|'
      ∧ lastFailure offlineLib "name" "" [] (stringsSplit "required|always|alpha" '|')
          = some "alpha"
      ∧ tokenMessage "name" "alpha" = "The name may only contain letters."
      ∧ Validate offlineLib [] [("name", "required|always|alpha")]
          = some (false, [("name", "The name field is required.")]) := by
  decide

/-- C18 (amended): for a field whose rule list is run (it has the token
`required` and is present, or has the token `always` and not the token
`required`, or has a non-empty value), whenever `Validate` returns, the field
has a message if and only if some token names a predicate of the catalog that
returns false on the field's value (the empty string when absent), and the
message is `buildErrorMessage` on the rule and parameters of the last such
token in textual order. -/
theorem last_failure_wins (L : Lib) (inputs rules : GoMap) (f e : String)
    (valid : Bool) (messages : GoMap)
    (hnd : (mapKeys rules).Nodup) (hfe : (f, e) ∈ rules)
    (hrun : ("required" ∈ stringsSplit e '|' ∧ mapGet inputs f ≠ none)
      ∨ ("always" ∈ stringsSplit e '|' ∧ "required" ∉ stringsSplit e '|')
      ∨ (∃ v, v ≠ "" ∧ mapGet inputs f = some v))
    (h : Validate L inputs rules = some (valid, messages)) :
    mapGet messages f
      = (lastFailure L f ((mapGet inputs f).getD "") inputs (stringsSplit e '|')).map
          (tokenMessage f) := by
  obtain ⟨h1, _⟩ := Validate_eq_some L inputs rules valid messages h
  obtain ⟨ma, mb, h3, h4, h5⟩ := validateFields_field L inputs rules f e hnd hfe [] messages h1
  rw [validateField_runs L inputs f e ma hrun] at h4
  rw [h5, runRules_last_failure L f _ inputs _ ma mb h4, h3]
  cases lastFailure L f ((mapGet inputs f).getD "") inputs (stringsSplit e '|') with
  | none => rfl
  | some t => rfl

theorem last_failure_wins_witness :
    (mapKeys [("code", "always|alpha|integer|email")]).Nodup
      ∧ ("always" ∈ stringsSplit "always|alpha|integer|email" '|'
          ∧ "required" ∉ stringsSplit "always|alpha|integer|email" '|')
      ∧ Validate offlineLib [("code", "abc")] [("code", "always|alpha|integer|email")]
          = some (false, [("code", "The code must be a valid email address.")])
      ∧ mapGet [("code", "The code must be a valid email address.")] "code"
          = (lastFailure offlineLib "code" ((mapGet [("code", "abc")] "code").getD "")
              [("code", "abc")] (stringsSplit "always|alpha|integer|email" '|')).map
              (tokenMessage "code") :=
  ⟨by decide, by decide, by decide,
    last_failure_wins offlineLib [("code", "abc")] [("code", "always|alpha|integer|email")]
      "code" "always|alpha|integer|email" false
      [("code", "The code must be a valid email address.")]
      (by decide) (by decide) (Or.inr (Or.inl (by decide))) (by decide)⟩

theorem runRules_panic_indep (L : Lib) (f v : String) (inputs : GoMap) (tokens : List String) :
    ∀ (m m1 : GoMap), runRules L f v inputs tokens m = none →
      runRules L f v inputs tokens m1 = none := by
  induction tokens with
  | nil => intro m m1 h; simp [runRules] at h
  | cons t rest ih =>
    intro m m1 h
    simp only [runRules] at h ⊢
    split
    · rename_i hnone
      rw [hnone] at h
      exact ih m m1 h
    · rename_i vFn hsome
      rw [hsome] at h
      simp only at h
      split
      · rfl
      · rename_i htrue
        rw [htrue] at h
        exact ih m m1 h
      · rename_i hfalse
        rw [hfalse] at h
        exact ih _ _ h

theorem validateField_shape (L : Lib) (inputs : GoMap) (f e : String) :
    ∃ c1 c2 : Bool, ∀ m, validateField L inputs f e m
      = if c1 = true then some (mapSet m f (buildErrorMessage f "required" []))
        else if c2 = true then
          runRules L f ((mapGet inputs f).getD "") inputs (stringsSplit e '|') m
        else some m :=
  ⟨_, _, fun _ => rfl⟩

theorem validateField_panic_indep (L : Lib) (inputs : GoMap) (f e : String) (m m1 : GoMap)
    (h : validateField L inputs f e m = none) : validateField L inputs f e m1 = none := by
  obtain ⟨c1, c2, hs⟩ := validateField_shape L inputs f e
  rw [hs] at h ⊢
  cases c1 with
  | true => simp at h
  | false =>
    cases c2 with
    | true =>
      simp only [Bool.false_eq_true, if_false, if_true] at h ⊢
      exact runRules_panic_indep L f _ inputs _ m m1 h
    | false => simp at h

theorem validateField_entry_congr (L : Lib) (inputs : GoMap) (f e : String)
    (m m1 n n1 : GoMap) (hm : mapGet m f = mapGet n f)
    (h1 : validateField L inputs f e m = some m1) (h2 : validateField L inputs f e n = some n1) :
    mapGet m1 f = mapGet n1 f := by
  obtain ⟨c1, c2, hs⟩ := validateField_shape L inputs f e
  rw [hs] at h1 h2
  cases c1 with
  | true =>
    simp only [if_true, Option.some.injEq] at h1 h2
    rw [← h1, ← h2, mapGet_mapSet_self, mapGet_mapSet_self]
  | false =>
    cases c2 with
    | true =>
      simp only [Bool.false_eq_true, if_false, if_true] at h1 h2
      rw [runRules_last_failure L f _ inputs _ m m1 h1,
        runRules_last_failure L f _ inputs _ n n1 h2, hm]
    | false =>
      simp only [Bool.false_eq_true, if_false, Option.some.injEq] at h1 h2
      rw [← h1, ← h2, hm]

theorem validateFields_panic_iff (L : Lib) (inputs : GoMap) (rules : GoMap) :
    ∀ m, validateFields L inputs rules m = none ↔
      ∃ fr ∈ rules, validateField L inputs fr.1 fr.2 [] = none := by
  induction rules with
  | nil => intro m; simp [validateFields]
  | cons a rest ih =>
    obtain ⟨g, r⟩ := a
    intro m
    simp only [validateFields, List.mem_cons, exists_eq_or_imp]
    cases hg : validateField L inputs g r m with
    | none =>
      simp only [true_iff]
      exact Or.inl (validateField_panic_indep L inputs g r m [] hg)
    | some m1 =>
      simp only
      rw [ih m1]
      constructor
      · intro h
        exact Or.inr h
      · intro h
        rcases h with h | h
        · have := validateField_panic_indep L inputs g r [] m h
          rw [hg] at this
          exact absurd this (by simp)
        · exact h

theorem eq_nil_iff_mapGet (m : GoMap) : m = [] ↔ ∀ k, mapGet m k = none := by
  constructor
  · intro h k
    subst h
    rfl
  · intro h
    cases m with
    | nil => rfl
    | cons a rest =>
      obtain ⟨k, v⟩ := a
      have := h k
      simp [mapGet] at this

theorem Validate_perm (L : Lib) (inputs rules1 rules2 : GoMap)
    (hnd : (mapKeys rules1).Nodup) (hperm : rules1.Perm rules2) :
    sameOutcome (Validate L inputs rules1) (Validate L inputs rules2) := by
  have hnd2 : (mapKeys rules2).Nodup := (List.Perm.nodup_iff (hperm.map Prod.fst)).mp hnd
  cases h1 : validateFields L inputs rules1 [] with
  | none =>
    obtain ⟨fr, hfr, hp⟩ := (validateFields_panic_iff L inputs rules1 []).mp h1
    have h2 : validateFields L inputs rules2 [] = none :=
      (validateFields_panic_iff L inputs rules2 []).mpr ⟨fr, hperm.mem_iff.mp hfr, hp⟩
    simp [Validate, h1, h2, sameOutcome]
  | some m1 =>
    cases h2 : validateFields L inputs rules2 [] with
    | none =>
      obtain ⟨fr, hfr, hp⟩ := (validateFields_panic_iff L inputs rules2 []).mp h2
      have h3 : validateFields L inputs rules1 [] = none :=
        (validateFields_panic_iff L inputs rules1 []).mpr ⟨fr, hperm.mem_iff.mpr hfr, hp⟩
      rw [h1] at h3
      exact absurd h3 (by simp)
    | some m2 =>
      have hk : ∀ k, mapGet m1 k = mapGet m2 k := by
        intro k
        by_cases hmem : k ∈ mapKeys rules1
        · obtain ⟨fr, hfr, hfk⟩ := List.mem_map.mp hmem
          obtain ⟨f, e⟩ := fr
          simp only at hfk
          subst hfk
          obtain ⟨ma, mb, ha, hb, hc⟩ :=
            validateFields_field L inputs rules1 f e hnd hfr [] m1 h1
          obtain ⟨na, nb, ha2, hb2, hc2⟩ :=
            validateFields_field L inputs rules2 f e hnd2 (hperm.mem_iff.mp hfr) [] m2 h2
          rw [hc, hc2]
          exact validateField_entry_congr L inputs f e ma mb na nb (by rw [ha, ha2]) hb hb2
        · have hmem2 : k ∉ mapKeys rules2 := fun h =>
            hmem ((hperm.map Prod.fst).mem_iff.mpr h)
          rw [validateFields_get_other L inputs rules1 k hmem [] m1 h1,
            validateFields_get_other L inputs rules2 k hmem2 [] m2 h2]
      have hnil : m1 = [] ↔ m2 = [] := by
        rw [eq_nil_iff_mapGet, eq_nil_iff_mapGet]
        constructor
        · intro h k
          rw [← hk k]
          exact h k
        · intro h k
          rw [hk k]
          exact h k
      simp only [Validate, h1, h2, sameOutcome]
      refine ⟨?_, hk⟩
      simp only [List.length_eq_zero, hnil]

theorem ValidateMaxValue_withLookupHost (L : Lib) (dns : String → Bool) :
    ValidateMaxValue (withLookupHost L dns) = ValidateMaxValue L := by
  funext n v i p
  simp only [ValidateMaxValue]
  by_cases hlen : p.length = 1
  · simp only [hlen, if_true]
    cases index p 0 with
    | none => rfl
    | some p0 =>
      have hp : (withLookupHost L dns).parseFloat = L.parseFloat := rfl
      simp only [Option.bind_eq_bind, Option.some_bind, hp]
      cases L.parseFloat p0 64 <;> cases L.parseFloat v 64 <;> rfl
  · simp only [hlen, if_false]

theorem ValidateMinValue_withLookupHost (L : Lib) (dns : String → Bool) :
    ValidateMinValue (withLookupHost L dns) = ValidateMinValue L := by
  funext n v i p
  simp only [ValidateMinValue]
  by_cases hlen : p.length = 1
  · simp only [hlen, if_true]
    cases index p 0 with
    | none => rfl
    | some p0 =>
      have hp : (withLookupHost L dns).parseFloat = L.parseFloat := rfl
      simp only [Option.bind_eq_bind, Option.some_bind, hp]
      cases L.parseFloat p0 64 <;> cases L.parseFloat v 64 <;> rfl
  · simp only [hlen, if_false]

theorem ValidateValue_withLookupHost (L : Lib) (dns : String → Bool) :
    ValidateValue (withLookupHost L dns) = ValidateValue L := by
  funext n v i p
  simp only [ValidateValue]
  by_cases hlen : p.length = 1
  · simp only [hlen, if_true]
    cases index p 0 with
    | none => rfl
    | some p0 =>
      have hp : (withLookupHost L dns).parseFloat = L.parseFloat := rfl
      simp only [Option.bind_eq_bind, Option.some_bind, hp]
      cases L.parseFloat p0 16 <;> cases L.parseFloat v 16 <;> rfl
  · simp only [hlen, if_false]

theorem ValidateValueBetween_withLookupHost (L : Lib) (dns : String → Bool) :
    ValidateValueBetween (withLookupHost L dns) = ValidateValueBetween L := by
  funext n v i p
  simp only [ValidateValueBetween, ValidateMinValue_withLookupHost,
    ValidateMaxValue_withLookupHost]

theorem Validators_withLookupHost (L : Lib) (dns : String → Bool) (rule : String)
    (h : rule ≠ "active_url") :
    mapGet (Validators (withLookupHost L dns)) rule = mapGet (Validators L) rule := by
  have hne : ¬ "active_url" = rule := fun e => h e.symm
  have e1 : ValidateDate (withLookupHost L dns) = ValidateDate L := rfl
  have e2 : ValidateIp (withLookupHost L dns) = ValidateIp L := rfl
  have e3 := ValidateMaxValue_withLookupHost L dns
  have e4 := ValidateMinValue_withLookupHost L dns
  have e5 : ValidateNumeric (withLookupHost L dns) = ValidateNumeric L := rfl
  have e6 : ValidateRegex (withLookupHost L dns) = ValidateRegex L := rfl
  have e7 : ValidateUrl (withLookupHost L dns) = ValidateUrl L := rfl
  have e8 := ValidateValue_withLookupHost L dns
  have e9 := ValidateValueBetween_withLookupHost L dns
  simp only [Validators, mapGet, hne, if_false, e1, e2, e3, e4, e5, e6, e7, e8, e9]

theorem runRules_withLookupHost (L : Lib) (dns : String → Bool) (f v : String) (inputs : GoMap)
    (tokens : List String) (h : ∀ t ∈ tokens, (splitRuleParams t).1 ≠ "active_url") :
    ∀ m, runRules (withLookupHost L dns) f v inputs tokens m = runRules L f v inputs tokens m := by
  induction tokens with
  | nil => intro m; rfl
  | cons t rest ih =>
    intro m
    have hrest : ∀ t1 ∈ rest, (splitRuleParams t1).1 ≠ "active_url" :=
      fun t1 h1 => h t1 (List.mem_cons_of_mem t h1)
    simp only [runRules, Validators_withLookupHost L dns _ (h t (List.mem_cons_self t rest)),
      ih hrest]

theorem validateFields_withLookupHost (L : Lib) (dns : String → Bool) (inputs : GoMap)
    (rules : GoMap) (h : usesActiveUrl rules = false) :
    ∀ m, validateFields (withLookupHost L dns) inputs rules m = validateFields L inputs rules m := by
  induction rules with
  | nil => intro m; rfl
  | cons a rest ih =>
    obtain ⟨f, e⟩ := a
    intro m
    simp only [usesActiveUrl, List.any_cons, Bool.or_eq_false_iff] at h
    have htok : ∀ t ∈ stringsSplit e '|', (splitRuleParams t).1 ≠ "active_url" := by
      intro t ht hc
      have := List.any_eq_false.mp h.1 t ht
      simp [hc] at this
    have hf : validateField (withLookupHost L dns) inputs f e m = validateField L inputs f e m := by
      simp only [validateField, runRules_withLookupHost L dns f _ inputs _ htok]
    simp only [validateFields, hf]
    cases validateField L inputs f e m with
    | none => rfl
    | some m1 => exact ih h.2 m1

/-- C14: for a rules map (with distinct keys) that does not use `active_url`,
the outcome of `Validate` is the same for every order in which the entries of
the rules map are visited and whatever the DNS lookups would answer: both runs
panic, or both return the same verdict and the same messages map; run twice in
the same order, the two results are equal. -/
theorem Validate_order_independent (L : Lib) (dns1 dns2 : String → Bool)
    (inputs rules1 rules2 : GoMap)
    (hnd : (mapKeys rules1).Nodup) (hperm : rules1.Perm rules2)
    (hno : usesActiveUrl rules1 = false) :
    sameOutcome (Validate (withLookupHost L dns1) inputs rules1)
        (Validate (withLookupHost L dns2) inputs rules2)
      ∧ Validate (withLookupHost L dns1) inputs rules1
          = Validate (withLookupHost L dns2) inputs rules1 := by
  have hno2 : usesActiveUrl rules2 = false := by
    simp only [usesActiveUrl] at hno ⊢
    apply List.any_eq_false.mpr
    intro fr hfr
    exact List.any_eq_false.mp hno fr (hperm.mem_iff.mpr hfr)
  have e1 : ∀ d, Validate (withLookupHost L d) inputs rules1 = Validate L inputs rules1 := by
    intro d
    simp only [Validate, validateFields_withLookupHost L d inputs rules1 hno]
  have e2 : Validate (withLookupHost L dns2) inputs rules2 = Validate L inputs rules2 := by
    simp only [Validate, validateFields_withLookupHost L dns2 inputs rules2 hno2]
  rw [e1 dns1, e1 dns2, e2]
  exact ⟨Validate_perm L inputs rules1 rules2 hnd hperm, rfl⟩

theorem Validate_order_independent_witness :
    (mapKeys [("name", "required|alpha"), ("age", "integer"), ("tos", "accepted")]).Nodup
      ∧ usesActiveUrl [("name", "required|alpha"), ("age", "integer"), ("tos", "accepted")]
          = false
      ∧ sameOutcome
          (Validate (withLookupHost offlineLib (fun _ => true)) [("name", "x1"), ("age", "x")]
            [("name", "required|alpha"), ("age", "integer"), ("tos", "accepted")])
          (Validate (withLookupHost offlineLib (fun _ => false)) [("name", "x1"), ("age", "x")]
            [("tos", "accepted"), ("age", "integer"), ("name", "required|alpha")]) :=
  ⟨by decide, by decide,
    (Validate_order_independent offlineLib (fun _ => true) (fun _ => false)
      [("name", "x1"), ("age", "x")]
      [("name", "required|alpha"), ("age", "integer"), ("tos", "accepted")]
      [("tos", "accepted"), ("age", "integer"), ("name", "required|alpha")]
      (by decide) (by decide) (by decide)).1⟩

theorem taggedFields_cons (a : StructField) (rest : List StructField) (k : String) :
    taggedFields (a :: rest) k
      = if a.jsonName = k ∧ a.jsonName ≠ "" ∧ a.validate ≠ "" then a :: taggedFields rest k
        else taggedFields rest k := by
  by_cases h : a.jsonName = k ∧ a.jsonName ≠ "" ∧ a.validate ≠ ""
  · have hd : decide (a.jsonName = k ∧ a.jsonName ≠ "" ∧ a.validate ≠ "") = true :=
      decide_eq_true h
    rw [if_pos h]
    simp only [taggedFields, List.filter_cons, hd, if_true]
  · have hd : decide (a.jsonName = k ∧ a.jsonName ≠ "" ∧ a.validate ≠ "") = false :=
      decide_eq_false h
    rw [if_neg h]
    simp only [taggedFields, List.filter_cons, hd, Bool.false_eq_true, if_false]

theorem rulesFromFields_get (s : List StructField) (k : String) :
    ∀ m : GoMap, mapGet (rulesFromFields s m) k
      = match (taggedFields s k).getLast? with
        | none => mapGet m k
        | some x => some x.validate := by
  induction s with
  | nil => intro m; rfl
  | cons a rest ih =>
    intro m
    rw [taggedFields_cons]
    simp only [rulesFromFields]
    by_cases hc : a.jsonName ≠ "" ∧ a.validate ≠ ""
    · rw [if_pos hc, ih]
      by_cases hk : a.jsonName = k
      · rw [if_pos ⟨hk, hc⟩, getLast?_cons_eq, ← hk, mapGet_mapSet_self]
        cases (taggedFields rest a.jsonName).getLast? with
        | none => rfl
        | some x => rfl
      · rw [if_neg (fun h => hk h.1), mapGet_mapSet_other _ _ _ _ hk]
    · rw [if_neg hc, if_neg (fun h => hc h.2), ih]

theorem mem_mapKeys_iff (m : GoMap) (k : String) :
    k ∈ mapKeys m ↔ ∃ v, mapGet m k = some v := by
  constructor
  · intro h
    cases hg : mapGet m k with
    | none =>
      induction m with
      | nil => simp [mapKeys] at h
      | cons a rest ih =>
        obtain ⟨k1, v1⟩ := a
        by_cases h1 : k1 = k
        · simp [mapGet, h1] at hg
        · simp only [mapGet, h1, if_false] at hg
          simp only [mapKeys, List.map_cons, List.mem_cons] at h
          rcases h with h | h
          · exact absurd h.symm h1
          · exact ih h hg
    | some v => exact ⟨v, rfl⟩
  · rintro ⟨v, hv⟩
    exact mapGet_isSome_mem_keys m k v hv

/-- The counterexample to C17: a struct whose only field is not exported and
has both tags yields an entry for that field. -/
theorem RulesFromStruct_counterexample :
    RulesFromStruct [⟨false, "secret", "required"⟩] = [("secret", "required")] := by
  decide

/-- C17 (amended): `RulesFromStruct` returns the map that has, for every
serialized name `k`, the `validate` tag of the last field, exported or not,
whose `json` tag is `k` and whose two tags are both non-empty, and no entry
for any other key; the record of S6 yields exactly its two entries. -/
theorem RulesFromStruct_spec (s : List StructField) :
    (∀ k, mapGet (RulesFromStruct s) k
        = ((taggedFields s k).getLast?).map (fun x => x.validate))
      ∧ (∀ k, k ∈ mapKeys (RulesFromStruct s) ↔
          ∃ x ∈ s, x.jsonName = k ∧ x.jsonName ≠ "" ∧ x.validate ≠ "")
      ∧ RulesFromStruct [⟨true, "email", "required|email"⟩, ⟨true, "age", "integer|min_value:0"⟩]
          = [("email", "required|email"), ("age", "integer|min_value:0")] := by
  have h1 : ∀ k, mapGet (RulesFromStruct s) k
      = ((taggedFields s k).getLast?).map (fun x => x.validate) := by
    intro k
    rw [RulesFromStruct, rulesFromFields_get]
    cases (taggedFields s k).getLast? with
    | none => rfl
    | some x => rfl
  refine ⟨h1, ?_, by decide⟩
  intro k
  rw [mem_mapKeys_iff]
  simp only [h1]
  constructor
  · rintro ⟨v, hv⟩
    cases hl : (taggedFields s k).getLast? with
    | none => rw [hl] at hv; simp at hv
    | some x =>
      have hx : x ∈ taggedFields s k := List.mem_of_getLast?_eq_some hl
      simp only [taggedFields, List.mem_filter, decide_eq_true_eq] at hx
      exact ⟨x, hx.1, hx.2⟩
  · rintro ⟨x, hx, hk⟩
    have hmem : x ∈ taggedFields s k := by
      simp only [taggedFields, List.mem_filter, decide_eq_true_eq]
      exact ⟨hx, hk⟩
    cases hl : (taggedFields s k).getLast? with
    | none =>
      rw [List.getLast?_eq_none_iff] at hl
      rw [hl] at hmem
      simp at hmem
    | some y => exact ⟨y.validate, rfl⟩

end Gogetio
